import Mathlib

/-!
Verification of the evaluation harness and retry pipeline of the
toon-evaluation-clinicalnotes repository.

The Python modules `toon_experiment/eval/metrics.py`,
`toon_experiment/eval/run_eval.py` and `toon_experiment/pipeline/run.py`
are shallowly embedded below.  Python floats are modelled as rationals
(`Rat`), Python dictionaries as insertion-ordered association lists
(`List (String × Val)`), and Python's `None`/strings/numbers/booleans as
scalar constructors of `Val`.
-/

namespace ToonEval

/-! ## Python string helpers -/

/-- The whitespace characters stripped by Python's `str.strip()`
(space, tab, newline, carriage return, form feed, vertical tab). -/
def pyIsSpace (c : Char) : Bool :=
  c = ' ' || c = '\t' || c = '\n' || c = '\r' || c = '\x0c' || c = '\x0b'

/-- Python `str.strip()` on a character list. -/
def pyStripChars (cs : List Char) : List Char :=
  ((cs.dropWhile pyIsSpace).reverse.dropWhile pyIsSpace).reverse

/-- Python `str.strip()`. -/
def pyStrip (s : String) : String :=
  ⟨pyStripChars s.data⟩

/-- Python `str.lower()` (ASCII letters; the repository's schema keys and
values of interest are ASCII). -/
def pyLower (s : String) : String :=
  ⟨s.data.map Char.toLower⟩

def isDigitChar (c : Char) : Bool :=
  '0' ≤ c && c ≤ '9'

/-- The decimal digit character for `n < 10`. -/
def digitChar (n : Nat) : Char :=
  Char.ofNat (48 + n)

/-- Decimal digits of a natural number, most significant first
(fuel-based so that it reduces by `decide`/`rfl`). -/
def natDigits : Nat → Nat → List Char
  | 0, _ => []
  | fuel + 1, n =>
    if n < 10 then [digitChar n]
    else natDigits fuel (n / 10) ++ [digitChar (n % 10)]

/-- Python `str(n)` for a natural number. -/
def natStr (n : Nat) : String :=
  ⟨natDigits (n + 1) n⟩

/-- Python `int(s)` on a digit string: fold of decimal digits. -/
def parseNatDigits (cs : List Char) : Nat :=
  cs.foldl (fun acc c => 10 * acc + (c.toNat - 48)) 0

/-! ## The value model

`Val` models the Python objects handled by the metrics code: `None`,
strings, integers, booleans, lists and (insertion-ordered) dicts. -/

inductive Val where
  | vNull : Val
  | vStr (s : String) : Val
  | vInt (n : Int) : Val
  | vBool (b : Bool) : Val
  | vList (xs : List Val) : Val
  | vDict (kvs : List (String × Val)) : Val
deriving Inhabited

mutual

def Val.beq : Val → Val → Bool
  | .vNull, .vNull => true
  | .vStr a, .vStr b => a == b
  | .vInt a, .vInt b => a == b
  | .vBool a, .vBool b => a == b
  | .vList a, .vList b => Val.beqList a b
  | .vDict a, .vDict b => Val.beqDict a b
  | _, _ => false

def Val.beqList : List Val → List Val → Bool
  | [], [] => true
  | a :: as, b :: bs => Val.beq a b && Val.beqList as bs
  | _, _ => false

def Val.beqDict : List (String × Val) → List (String × Val) → Bool
  | [], [] => true
  | (ka, va) :: as, (kb, vb) :: bs => ka == kb && Val.beq va vb && Val.beqDict as bs
  | _, _ => false

end

instance : BEq Val := ⟨Val.beq⟩

/-- `_is_empty` from `metrics.py`: `None`, whitespace-only strings, empty
lists and empty dicts are empty. -/
def isEmptyV : Val → Bool
  | .vNull => true
  | .vStr s => pyStrip s = ""
  | .vList xs => xs.isEmpty
  | .vDict kvs => kvs.isEmpty
  | _ => false

/-- `_is_empty` applied to `dict.get` results (`_is_empty(None)` is true
for an absent key). -/
def isEmptyO : Option Val → Bool
  | none => true
  | some v => isEmptyV v

mutual

/-- Python `str(v)` restricted to the value model (containers render with
`repr` of their elements, as CPython does). -/
def pyStr : Val → String
  | .vNull => "None"
  | .vStr s => s
  | .vInt n => if n < 0 then "-" ++ natStr (-n).toNat else natStr n.toNat
  | .vBool b => if b then "True" else "False"
  | .vList xs => "[" ++ pyStrList xs ++ "]"
  | .vDict kvs => "\x7b" ++ pyStrDict kvs ++ "\x7d"

/-- Python `repr(v)` restricted to the value model (strings quoted). -/
def pyRepr : Val → String
  | .vNull => "None"
  | .vStr s => "'" ++ s ++ "'"
  | .vInt n => if n < 0 then "-" ++ natStr (-n).toNat else natStr n.toNat
  | .vBool b => if b then "True" else "False"
  | .vList xs => "[" ++ pyStrList xs ++ "]"
  | .vDict kvs => "\x7b" ++ pyStrDict kvs ++ "\x7d"

def pyStrList : List Val → String
  | [] => ""
  | [x] => pyRepr x
  | x :: rest => pyRepr x ++ ", " ++ pyStrList rest

def pyStrDict : List (String × Val) → String
  | [] => ""
  | [(k, v)] => "'" ++ k ++ "': " ++ pyRepr v
  | (k, v) :: rest => "'" ++ k ++ "': " ++ pyRepr v ++ ", " ++ pyStrDict rest

end

/-- `_normalize` from `metrics.py`: `""` for `None`, else
`str(v).strip().lower()`. -/
def normalizeV : Val → String
  | .vNull => ""
  | v => pyLower (pyStrip (pyStr v))

/-! ## The flattener (`_flatten` in `metrics.py`)

Python's `flat.update(...)` keeps the original position of an existing
key and overwrites its value; `dUpdate`/`dMerge` mirror this. -/

/-- One-key `dict.__setitem__`: replace in place if present, else append. -/
def dUpdate (flat : List (String × Val)) (kv : String × Val) : List (String × Val) :=
  match flat with
  | [] => [kv]
  | (k, v) :: rest =>
    if k = kv.1 then (k, kv.2) :: rest else (k, v) :: dUpdate rest kv

/-- `dict.update(new)`: apply `dUpdate` for each entry of `new` in order. -/
def dMerge (flat new : List (String × Val)) : List (String × Val) :=
  new.foldl dUpdate flat

/-- Child prefix for a dict key (`f"{prefix}.{k}" if prefix else str(k)`). -/
def childKey (pfx k : String) : String :=
  if pfx = "" then k else pfx ++ "." ++ k

mutual

/-- `_flatten(obj, prefix)` from `metrics.py`. -/
def flattenV : Val → String → List (String × Val)
  | .vDict kvs, pfx => flattenDictAux kvs pfx []
  | .vList xs, pfx => flattenListAux xs pfx 0 []
  | v, pfx => [(pfx, v)]

def flattenDictAux : List (String × Val) → String → List (String × Val) → List (String × Val)
  | [], _, flat => flat
  | (k, v) :: rest, pfx, flat =>
    flattenDictAux rest pfx (dMerge flat (flattenV v (childKey pfx k)))

def flattenListAux : List Val → String → Nat → List (String × Val) → List (String × Val)
  | [], _, _, flat => flat
  | v :: rest, pfx, i, flat =>
    flattenListAux rest pfx (i + 1) (dMerge flat (flattenV v (pfx ++ "[" ++ natStr i ++ "]")))

end

/-! ## Field scorer (`field_precision_recall_f1` in `metrics.py`) -/

/-- The reserved path excluded from field scoring. -/
def svKey : String := "schema_version"

/-- One iteration of the reference loop in `field_precision_recall_f1`,
accumulating `(tp, fn)`. -/
def fieldCountsStep (pflat : List (String × Val)) (acc : Nat × Nat) (kv : String × Val) :
    Nat × Nat :=
  if kv.1 == svKey then acc
  else if isEmptyV kv.2 then acc
  else
    let pv := pflat.lookup kv.1
    if isEmptyO pv then (acc.1, acc.2 + 1)
    else if normalizeV (pv.getD .vNull) == normalizeV kv.2 then (acc.1 + 1, acc.2)
    else (acc.1, acc.2 + 1)

/-- The zero-denominator-guarded precision/recall/F1 triple computed at
the end of `field_precision_recall_f1` (and of `entity_array_f1`). -/
def prfFromCounts (tp fp fn : Nat) : Rat × Rat × Rat :=
  let prc : Rat := if tp + fp > 0 then (tp : Rat) / ((tp : Rat) + (fp : Rat)) else 0
  let rcl : Rat := if tp + fn > 0 then (tp : Rat) / ((tp : Rat) + (fn : Rat)) else 0
  let f1 : Rat := if prc + rcl > 0 then 2 * prc * rcl / (prc + rcl) else 0
  (prc, rcl, f1)

/-- `field_precision_recall_f1(pred, ref)` from `metrics.py`. -/
def fieldPRF (pred ref : Val) : Rat × Rat × Rat :=
  let pflat := flattenV pred ""
  let rflat := flattenV ref ""
  let tpfn := rflat.foldl (fieldCountsStep pflat) (0, 0)
  let fp := pflat.countP (fun kv => (rflat.lookup kv.1).isNone && !isEmptyV kv.2)
  prfFromCounts tpfn.1 fp tpfn.2

/-- Spec-side predicate: a reference path counted as a true positive
(non-reserved, non-empty, prediction has the path with a non-empty value
whose trimmed-lowercased string form equals the reference's). -/
def refIsTP (pflat : List (String × Val)) (kv : String × Val) : Bool :=
  kv.1 != svKey && !isEmptyV kv.2 &&
    (match pflat.lookup kv.1 with
     | some pv => !isEmptyV pv && (normalizeV pv == normalizeV kv.2)
     | none => false)

/-- Spec-side predicate: a reference path counted as a false negative. -/
def refIsFN (pflat : List (String × Val)) (kv : String × Val) : Bool :=
  kv.1 != svKey && !isEmptyV kv.2 && !refIsTP pflat kv

/-- Spec-side true-positive count. -/
def tpSpec (pred ref : Val) : Nat :=
  (flattenV ref "").countP (refIsTP (flattenV pred ""))

/-- Spec-side false-negative count. -/
def fnSpec (pred ref : Val) : Nat :=
  (flattenV ref "").countP (refIsFN (flattenV pred ""))

/-- Spec-side false-positive count: prediction paths absent from the
reference with a non-empty value. -/
def fpSpec (pred ref : Val) : Nat :=
  (flattenV pred "").countP
    (fun kv => ((flattenV ref "").lookup kv.1).isNone && !isEmptyV kv.2)

theorem fieldCountsStep_eq (pflat : List (String × Val)) (acc : Nat × Nat)
    (kv : String × Val) :
    fieldCountsStep pflat acc kv =
      (acc.1 + (if refIsTP pflat kv then 1 else 0),
       acc.2 + (if refIsFN pflat kv then 1 else 0)) := by
  unfold fieldCountsStep refIsFN refIsTP
  by_cases hsv : kv.1 = svKey
  · simp [hsv]
  · by_cases hre : isEmptyV kv.2
    · simp [hsv, hre]
    · cases h : pflat.lookup kv.1 with
      | none => simp [h, hsv, hre, isEmptyO]
      | some pv =>
        by_cases hpe : isEmptyV pv
        · simp [h, hsv, hre, hpe, isEmptyO]
        · by_cases heq : normalizeV pv = normalizeV kv.2
          · simp [h, hsv, hre, hpe, heq, isEmptyO]
          · simp [h, hsv, hre, hpe, heq, isEmptyO]

theorem fieldCounts_foldl (pflat : List (String × Val)) :
    ∀ (l : List (String × Val)) (a b : Nat),
      l.foldl (fieldCountsStep pflat) (a, b) =
        (a + l.countP (refIsTP pflat), b + l.countP (refIsFN pflat)) := by
  intro l
  induction l with
  | nil => intro a b; simp
  | cons kv rest ih =>
    intro a b
    rw [List.foldl_cons, fieldCountsStep_eq, ih]
    simp only [List.countP_cons]
    cases refIsTP pflat kv <;> cases refIsFN pflat kv <;> simp <;> omega

/-- C1. `field_precision_recall_f1` returns precision/recall/F1 computed
from the claim's counts: reference paths (other than `schema_version`)
with non-empty values yield one TP on a normalized exact match and one FN
otherwise (never an FP); prediction paths absent from the reference with
non-empty values yield one FP; precision = TP/(TP+FP), recall =
TP/(TP+FN), F1 their harmonic mean, each 0 when its denominator is 0. -/
theorem field_prf_spec (pred ref : Val) :
    fieldPRF pred ref =
      (let tp := tpSpec pred ref
       let fp := fpSpec pred ref
       let fn := fnSpec pred ref
       let prc : Rat := if tp + fp > 0 then (tp : Rat) / ((tp : Rat) + (fp : Rat)) else 0
       let rcl : Rat := if tp + fn > 0 then (tp : Rat) / ((tp : Rat) + (fn : Rat)) else 0
       let f1 : Rat :=
         if prc + rcl > 0 then 2 * prc * rcl / (prc + rcl) else 0
       (prc, rcl, f1)) := by
  simp only [fieldPRF, tpSpec, fpSpec, fnSpec, fieldCounts_foldl, Nat.zero_add,
    prfFromCounts]

/-! ## Key uniqueness of flattened mappings -/

theorem keys_dUpdate (flat : List (String × Val)) (kv : String × Val) :
    (dUpdate flat kv).map Prod.fst =
      if kv.1 ∈ flat.map Prod.fst then flat.map Prod.fst
      else flat.map Prod.fst ++ [kv.1] := by
  induction flat with
  | nil => simp [dUpdate]
  | cons hd rest ih =>
    obtain ⟨k, v⟩ := hd
    by_cases hk : k = kv.1
    · simp [dUpdate, hk]
    · have hk' : kv.1 ≠ k := fun he => hk he.symm
      simp only [dUpdate, hk, if_false, List.map_cons, ih]
      by_cases hmem : kv.1 ∈ rest.map Prod.fst
      · simp [hmem, hk']
      · simp [hmem, hk']

theorem nodup_keys_dUpdate (flat : List (String × Val)) (kv : String × Val)
    (h : (flat.map Prod.fst).Nodup) :
    ((dUpdate flat kv).map Prod.fst).Nodup := by
  rw [keys_dUpdate]
  by_cases hmem : kv.1 ∈ flat.map Prod.fst
  · simpa [hmem] using h
  · simp only [hmem, if_false]
    rw [List.nodup_append]
    exact ⟨h, List.nodup_singleton _, by simpa using hmem⟩

theorem nodup_keys_dMerge (new : List (String × Val)) :
    ∀ (flat : List (String × Val)), (flat.map Prod.fst).Nodup →
      ((dMerge flat new).map Prod.fst).Nodup := by
  induction new with
  | nil => intro flat h; simpa [dMerge] using h
  | cons kv rest ih =>
    intro flat h
    have : dMerge flat (kv :: rest) = dMerge (dUpdate flat kv) rest := by
      simp [dMerge]
    rw [this]
    exact ih _ (nodup_keys_dUpdate flat kv h)

theorem nodup_keys_flattenDictAux (kvs : List (String × Val)) :
    ∀ (pfx : String) (flat : List (String × Val)), (flat.map Prod.fst).Nodup →
      ((flattenDictAux kvs pfx flat).map Prod.fst).Nodup := by
  induction kvs with
  | nil => intro pfx flat h; simpa [flattenDictAux] using h
  | cons kv rest ih =>
    intro pfx flat h
    obtain ⟨k, v⟩ := kv
    rw [flattenDictAux]
    exact ih pfx _ (nodup_keys_dMerge _ flat h)

theorem nodup_keys_flattenListAux (xs : List Val) :
    ∀ (pfx : String) (i : Nat) (flat : List (String × Val)), (flat.map Prod.fst).Nodup →
      ((flattenListAux xs pfx i flat).map Prod.fst).Nodup := by
  induction xs with
  | nil => intro pfx i flat h; simpa [flattenListAux] using h
  | cons x rest ih =>
    intro pfx i flat h
    rw [flattenListAux]
    exact ih pfx _ _ (nodup_keys_dMerge _ flat h)

/-- The flattened mapping of any value has pairwise distinct paths. -/
theorem nodup_keys_flattenV (v : Val) (pfx : String) :
    ((flattenV v pfx).map Prod.fst).Nodup := by
  cases v with
  | vDict kvs => exact nodup_keys_flattenDictAux kvs pfx [] (by simp)
  | vList xs => exact nodup_keys_flattenListAux xs pfx 0 [] (by simp)
  | vNull => simp [flattenV]
  | vStr s => simp [flattenV]
  | vInt n => simp [flattenV]
  | vBool b => simp [flattenV]

theorem lookup_isSome_of_mem {l : List (String × Val)} {kv : String × Val}
    (h : kv ∈ l) : (l.lookup kv.1).isSome := by
  induction l with
  | nil => simp at h
  | cons hd rest ih =>
    obtain ⟨k, v⟩ := hd
    rcases List.mem_cons.mp h with h | h
    · subst h; simp [List.lookup]
    · by_cases hk : kv.1 = k
      · simp [List.lookup, hk]
      · simp only [List.lookup]
        have hb : (kv.1 == k) = false := by simp [hk]
        rw [hb]
        exact ih h

theorem lookup_eq_some_of_mem {l : List (String × Val)} {kv : String × Val}
    (hnd : (l.map Prod.fst).Nodup) (h : kv ∈ l) : l.lookup kv.1 = some kv.2 := by
  induction l with
  | nil => simp at h
  | cons hd rest ih =>
    obtain ⟨k, v⟩ := hd
    simp only [List.map_cons, List.nodup_cons] at hnd
    rcases List.mem_cons.mp h with h | h
    · subst h; simp [List.lookup]
    · have hk : kv.1 ≠ k := by
        intro he
        exact hnd.1 (he ▸ (List.mem_map.mpr ⟨kv, h, rfl⟩))
      simp only [List.lookup]
      have hb : (kv.1 == k) = false := by simp [hk]
      rw [hb]
      exact ih hnd.2 h

theorem prfFromCounts_perfect (tp : Nat) (h : 0 < tp) :
    prfFromCounts tp 0 0 = (1, 1, 1) := by
  have h1 : (tp : Rat) ≠ 0 := by
    have : tp ≠ 0 := by omega
    exact_mod_cast this
  unfold prfFromCounts
  simp only [Nat.add_zero, Nat.cast_zero, add_zero, h, if_pos]
  rw [div_self h1]
  norm_num

/-- C9 (amended). Scoring a record against itself gives a perfect
(1.0, 1.0, 1.0) whenever the record's flattening has at least one path
other than `schema_version` with a non-empty value. -/
theorem field_prf_self (kvs : List (String × Val))
    (h : ∃ kv ∈ flattenV (Val.vDict kvs) "", kv.1 ≠ svKey ∧ isEmptyV kv.2 = false) :
    fieldPRF (Val.vDict kvs) (Val.vDict kvs) = (1, 1, 1) := by
  have hnd := nodup_keys_flattenV (Val.vDict kvs) ""
  set rflat := flattenV (Val.vDict kvs) "" with hrflat
  have htp : ∀ kv ∈ rflat, kv.1 ≠ svKey → isEmptyV kv.2 = false →
      refIsTP rflat kv = true := by
    intro kv hmem hsv he
    have hl : rflat.lookup kv.1 = some kv.2 := lookup_eq_some_of_mem hnd hmem
    simp [refIsTP, hl, hsv, he]
  have hfn : rflat.countP (refIsFN rflat) = 0 := by
    rw [List.countP_eq_zero]
    intro kv hmem
    by_cases hsv : kv.1 = svKey
    · simp [refIsFN, hsv]
    · by_cases he : isEmptyV kv.2
      · simp [refIsFN, he]
      · simp [refIsFN, htp kv hmem hsv (by simpa using he)]
  have hfp : rflat.countP (fun kv => (rflat.lookup kv.1).isNone && !isEmptyV kv.2) = 0 := by
    rw [List.countP_eq_zero]
    intro kv hmem
    have := lookup_isSome_of_mem hmem
    simp only [Bool.and_eq_true, Bool.not_eq_true', Option.isNone_iff_eq_none]
    intro hc
    rw [hc.1] at this
    simp at this
  have htp0 : 0 < rflat.countP (refIsTP rflat) := by
    obtain ⟨kv, hmem, hsv, he⟩ := h
    exact List.countP_pos_iff.mpr ⟨kv, hmem, htp kv hmem hsv he⟩
  simp only [fieldPRF, ← hrflat]
  rw [fieldCounts_foldl, hfp]
  simp only [Nat.zero_add, hfn]
  exact prfFromCounts_perfect _ htp0

section RatEval

attribute [local semireducible] Rat.mul Rat.add Rat.inv Rat.sub

/-- C9 counterexample. The record `{"schema_version": "1"}` is non-empty
and has no empty leaf values, yet scoring it against itself yields
(0.0, 0.0, 0.0), not (1.0, 1.0, 1.0). -/
theorem field_prf_self_counterexample :
    ([(svKey, Val.vStr "1")] : List (String × Val)) ≠ [] ∧
    isEmptyV (Val.vStr "1") = false ∧
    fieldPRF (Val.vDict [(svKey, Val.vStr "1")]) (Val.vDict [(svKey, Val.vStr "1")])
      = (0, 0, 0) ∧
    fieldPRF (Val.vDict [(svKey, Val.vStr "1")]) (Val.vDict [(svKey, Val.vStr "1")])
      ≠ (1, 1, 1) := by
  refine ⟨by simp, by decide, by decide, by decide⟩

/-- C9 witness: a concrete record satisfying the amended hypothesis. -/
theorem field_prf_self_witness :
    fieldPRF (Val.vDict [("symptoms", Val.vStr "fever")])
      (Val.vDict [("symptoms", Val.vStr "fever")]) = (1, 1, 1) := by
  apply field_prf_self
  refine ⟨("symptoms", Val.vStr "fever"), ?_, by decide, by decide⟩
  show _ ∈ ([("symptoms", Val.vStr "fever")] : List (String × Val))
  exact List.mem_singleton.mpr rfl

end RatEval

/-! ## SequenceMatcher (`difflib`, junk-free)

`entity_array_f1` measures entity similarity with
`SequenceMatcher(None, s1, s2).ratio()`.  The embedding below implements
difflib's recursive longest-matching-block computation without the junk
heuristics (the code never designates junk; autojunk only affects strings
of length ≥ 200). -/

/-- One DP row: `row[j] = prev[j-1] + 1` if `b[j] = ai` else `0`.
`left` carries `prev[j-1]` (0 for `j = 0`). -/
def lcsRowAux (ai : Char) : List Char → List Nat → Nat → List Nat
  | [], _, _ => []
  | c :: cs, prev, left =>
    (if c = ai then left + 1 else 0) :: lcsRowAux ai cs prev.tail (prev.headD 0)

/-- First position (from `j`) holding a strictly larger run length. -/
def bestInRowAux : List Nat → Nat → Nat × Nat → Nat × Nat
  | [], _, best => best
  | k :: rest, j, best =>
    bestInRowAux rest (j + 1) (if k > best.2 then (j, k) else best)

/-- Scan rows of the DP table, keeping the first strictly-best block end
`(i, j, k)` in row-major order (difflib's `if k > bestk` tie-breaking). -/
def flmAux : List Char → List Char → Nat → List Nat → Nat × Nat × Nat → Nat × Nat × Nat
  | [], _, _, _, best => best
  | ai :: arest, b, i, prev, best =>
    let row := lcsRowAux ai b prev 0
    let bj := bestInRowAux row 0 (0, 0)
    let best' := if bj.2 > best.2.2 then (i, bj.1, bj.2) else best
    flmAux arest b (i + 1) row best'

/-- difflib `find_longest_match` (junk-free): the longest block
`a[i:i+k] = b[j:j+k]`, earliest in `a` then in `b` on ties; `(0,0,0)` when
there is no common block. -/
def findLongestMatch (a b : List Char) : Nat × Nat × Nat :=
  let e := flmAux a b 0 [] (0, 0, 0)
  if e.2.2 = 0 then (0, 0, 0) else (e.1 + 1 - e.2.2, e.2.1 + 1 - e.2.2, e.2.2)

/-- Total size of difflib's matching blocks: recursively take the longest
matching block and recurse on both sides (fuel `|a| + |b|` suffices). -/
def matchedSize : Nat → List Char → List Char → Nat
  | 0, _, _ => 0
  | fuel + 1, a, b =>
    let m := findLongestMatch a b
    let i := m.1
    let j := m.2.1
    let k := m.2.2
    if k = 0 then 0
    else
      matchedSize fuel (a.take i) (b.take j) + k +
        matchedSize fuel (a.drop (i + k)) (b.drop (j + k))

/-- `SequenceMatcher(None, s1, s2).ratio()`: `2·M/T` where `M` is the
total matched size and `T` the total length (`1.0` when both empty). -/
def seqRatio (s1 s2 : String) : Rat :=
  let a := s1.data
  let b := s2.data
  let total := a.length + b.length
  if total = 0 then 1
  else 2 * (matchedSize total a b : Rat) / (total : Rat)

/-! ## Entity matcher (`entity_array_f1` in `metrics.py`) -/

/-- Lexicographic code-point comparison (Python `str.__lt__`). -/
def charsLt : List Char → List Char → Bool
  | [], [] => false
  | [], _ :: _ => true
  | _ :: _, [] => false
  | a :: as, b :: bs => if a < b then true else if b < a then false else charsLt as bs

def strLtB (a b : String) : Bool := charsLt a.data b.data

/-- Insertion step for sorting dict items by key (Python `sorted`). -/
def insertByKey (kv : String × Val) : List (String × Val) → List (String × Val)
  | [] => [kv]
  | hd :: rest => if strLtB kv.1 hd.1 then kv :: hd :: rest else hd :: insertByKey kv rest

/-- `sorted(entity.items())` (dict keys are distinct, so key comparison
decides the order). -/
def sortByKey (kvs : List (String × Val)) : List (String × Val) :=
  kvs.foldr insertByKey []

/-- `"|".join(parts)` etc. -/
def joinWith (sep : String) : List String → String
  | [] => ""
  | [x] => x
  | x :: rest => x ++ sep ++ joinWith sep rest

/-- `_entity_to_string` from `metrics.py`: for dicts, sorted
`"key:normalizedvalue"` tokens over non-empty fields joined by `"|"`;
otherwise `_normalize(str(entity))`. -/
def entityToString (e : Val) : String :=
  match e with
  | .vDict kvs =>
    joinWith "|"
      ((sortByKey kvs).filterMap fun kv =>
        if isEmptyV kv.2 then none else some (kv.1 ++ ":" ++ normalizeV kv.2))
  | _ => normalizeV (.vStr (pyStr e))

/-- The `for idx, candidate in enumerate(candidates)` loop of
`_find_best_match`: keep the first strictly-larger score. -/
def bestScan : List Rat → Nat → Int × Rat → Int × Rat
  | [], _, best => best
  | s :: rest, i, best =>
    bestScan rest (i + 1) (if s > best.2 then ((i : Int), s) else best)

/-- `_find_best_match(entity, candidates, threshold)` from `metrics.py`:
`(-1, 0.0)` when the best score is below the threshold. -/
def findBestMatch (entity : Val) (cands : List Val) (t : Rat) : Int × Rat :=
  let eStr := entityToString entity
  let best := bestScan (cands.map fun c => seqRatio eStr (entityToString c)) 0 (-1, 0)
  if best.2 ≥ t then best else (-1, 0)

/-- Indices of still-unmatched reference entities
(`[i for i, matched in enumerate(ref_matched) if not matched]`). -/
def unmatchedIndicesAux : List Bool → Nat → List Nat
  | [], _ => []
  | b :: rest, i =>
    if b then unmatchedIndicesAux rest (i + 1) else i :: unmatchedIndicesAux rest (i + 1)

def unmatchedIndices (refMatched : List Bool) : List Nat :=
  unmatchedIndicesAux refMatched 0

/-- Still-unmatched reference entities
(`[r for r_idx, r in enumerate(ref_entities) if not ref_matched[r_idx]]`). -/
def candidatesOf : List Val → List Bool → List Val
  | [], _ => []
  | _ :: _, [] => []
  | r :: rest, b :: brest =>
    if b then candidatesOf rest brest else r :: candidatesOf rest brest

/-- In-place list update (`xs[i] = v`). -/
def listSet : List Bool → Nat → Bool → List Bool
  | [], _, _ => []
  | _ :: rest, 0, v => v :: rest
  | x :: rest, i + 1, v => x :: listSet rest i v

/-- State of the greedy matching loop in `entity_array_f1`: the two
boolean arrays of the source plus the explicit list of matched
`(pred index, ref index)` pairs they encode. -/
structure MatchState where
  refMatched : List Bool
  predMatched : List Bool
  pairs : List (Nat × Nat)

/-- One iteration of the `for p_idx, pred_entity in enumerate(...)` loop
of `entity_array_f1`. -/
def greedyStep (t : Rat) (refE : List Val) (st : MatchState) (pe : Nat × Val) :
    MatchState :=
  let cands := candidatesOf refE st.refMatched
  let best := findBestMatch pe.2 cands t
  if best.1 ≥ 0 then
    let ui := unmatchedIndices st.refMatched
    let actual := ui.getD best.1.toNat 0
    { refMatched := listSet st.refMatched actual true
      predMatched := listSet st.predMatched pe.1 true
      pairs := st.pairs ++ [(pe.1, actual)] }
  else st

/-- The `for p_idx, pred_entity in enumerate(pred_entities)` loop of
`entity_array_f1`. -/
def greedyLoop (t : Rat) (refE : List Val) : List Val → Nat → MatchState → MatchState
  | [], _, st => st
  | e :: rest, pIdx, st => greedyLoop t refE rest (pIdx + 1) (greedyStep t refE st (pIdx, e))

/-- The full greedy matching loop of `entity_array_f1`. -/
def greedyMatch (t : Rat) (predE refE : List Val) : MatchState :=
  greedyLoop t refE predE 0 ⟨refE.map fun _ => false, predE.map fun _ => false, []⟩

def countTrue (l : List Bool) : Nat := l.countP id

/-- Per-field body of `entity_array_f1`: boundary cases for empty lists,
then greedy matching and the guarded precision/recall/F1. -/
def entityFieldScore (t : Rat) (predE refE : List Val) : Rat × Rat × Rat :=
  if refE.isEmpty then (if predE.isEmpty then (1, 1, 1) else (0, 1, 0))
  else if predE.isEmpty then (0, 0, 0)
  else
    let st := greedyMatch t predE refE
    let tp := countTrue st.predMatched
    let fp := predE.length - tp
    let fn := refE.length - countTrue st.refMatched
    prfFromCounts tp fp fn

/-- `pred.get(field, [])` followed by the non-list-to-empty coercion of
`entity_array_f1`. -/
def getArrayField (d : List (String × Val)) (field : String) : List Val :=
  match d.lookup field with
  | some (Val.vList xs) => xs
  | _ => []

/-- The default clinical array-field list of `entity_array_f1`. -/
def defaultArrayFields : List String :=
  ["symptoms", "treatments", "diagnosis tests", "medical examinations",
   "surgeries", "admission"]

/-- `entity_array_f1(pred, ref, array_fields, threshold)` from
`metrics.py` (result dict as an association list over the field list). -/
def entityArrayF1 (pred ref : List (String × Val))
    (fields : List String := defaultArrayFields) (t : Rat := 7 / 10) :
    List (String × (Rat × Rat × Rat)) :=
  fields.map fun field =>
    (field, entityFieldScore t (getArrayField pred field) (getArrayField ref field))

theorem lookup_map_self {α : Type} (g : String → α) (fields : List String) (f : String)
    (hf : f ∈ fields) :
    (fields.map fun x => (x, g x)).lookup f = some (g f) := by
  induction fields with
  | nil => simp at hf
  | cons hd rest ih =>
    by_cases h : f = hd
    · subst h; simp [List.lookup]
    · have hb : (f == hd) = false := by simp [h]
      simp only [List.map_cons, List.lookup, hb]
      exact ih (by rcases List.mem_cons.mp hf with h' | h' <;> [exact absurd h' h; exact h'])

/-- C5. For each designated array field, `entity_array_f1` coerces a
non-list value to the empty list and scores the boundary cases:
(1,1,1) when both lists are empty, (0,1,0) when only the reference is
empty, (0,0,0) when only the prediction is empty. -/
theorem entity_array_boundary (pred ref : List (String × Val)) (fields : List String)
    (t : Rat) (f : String) (hf : f ∈ fields) :
    ∃ s, (entityArrayF1 pred ref fields t).lookup f = some s ∧
      (∀ v, pred.lookup f = some v → (∀ xs, v ≠ Val.vList xs) → getArrayField pred f = []) ∧
      (getArrayField ref f = [] → getArrayField pred f = [] → s = (1, 1, 1)) ∧
      (getArrayField ref f = [] → getArrayField pred f ≠ [] → s = (0, 1, 0)) ∧
      (getArrayField pred f = [] → getArrayField ref f ≠ [] → s = (0, 0, 0)) := by
  refine ⟨entityFieldScore t (getArrayField pred f) (getArrayField ref f), ?_, ?_, ?_, ?_, ?_⟩
  · exact lookup_map_self
      (fun x => entityFieldScore t (getArrayField pred x) (getArrayField ref x)) fields f hf
  · intro v hv hnl
    unfold getArrayField
    rw [hv]
    cases v with
    | vList xs => exact absurd rfl (hnl xs)
    | vNull => rfl
    | vStr s => rfl
    | vInt n => rfl
    | vBool b => rfl
    | vDict kvs => rfl
  · intro hr hp
    simp [entityFieldScore, hr, hp]
  · intro hr hp
    have : (getArrayField pred f).isEmpty = false := by
      cases h : getArrayField pred f with
      | nil => exact absurd h hp
      | cons a l => simp
    simp [entityFieldScore, hr, this]
  · intro hp hr
    have : (getArrayField ref f).isEmpty = false := by
      cases h : getArrayField ref f with
      | nil => exact absurd h hr
      | cons a l => simp
    simp [entityFieldScore, hp, this]

section RatEvalB

attribute [local semireducible] Rat.mul Rat.add Rat.inv Rat.sub

/-- C5 witness: the spec's two boundary examples and the coercion,
obtained from `entity_array_boundary` at concrete inputs. -/
theorem entity_array_boundary_witness :
    (entityArrayF1 [("x", Val.vList [])] [("x", Val.vList [])] ["x"] (7/10)).lookup "x"
        = some (1, 1, 1) ∧
    (entityArrayF1 [("x", Val.vList [Val.vDict [("name", Val.vStr "a")]])]
        [("x", Val.vList [])] ["x"] (7/10)).lookup "x" = some (0, 1, 0) ∧
    (entityArrayF1 [("x", Val.vStr "oops")] [("x", Val.vList [Val.vStr "a"])]
        ["x"] (7/10)).lookup "x" = some (0, 0, 0) := by
  refine ⟨?_, ?_, ?_⟩
  · obtain ⟨s, hs, _, h11, _, _⟩ :=
      entity_array_boundary [("x", Val.vList [])] [("x", Val.vList [])] ["x"] (7/10) "x"
        (by decide)
    rw [hs, h11 rfl rfl]
  · obtain ⟨s, hs, _, _, h01, _⟩ :=
      entity_array_boundary [("x", Val.vList [Val.vDict [("name", Val.vStr "a")]])]
        [("x", Val.vList [])] ["x"] (7/10) "x" (by decide)
    rw [hs, h01 rfl (by simp [getArrayField, List.lookup])]
  · obtain ⟨s, hs, hco, _, _, h00⟩ :=
      entity_array_boundary [("x", Val.vStr "oops")] [("x", Val.vList [Val.vStr "a"])]
        ["x"] (7/10) "x" (by decide)
    rw [hs, h00 (hco (Val.vStr "oops") (by simp [List.lookup]) (by intro xs h; cases h))
      (by simp [getArrayField, List.lookup])]

end RatEvalB

/-! ## Injectivity of the greedy matching (C4) -/

theorem listSet_length (l : List Bool) (i : Nat) (v : Bool) :
    (listSet l i v).length = l.length := by
  induction l generalizing i with
  | nil => rfl
  | cons x rest ih =>
    cases i with
    | zero => rfl
    | succ j => simp [listSet, ih]

theorem listSet_getD_eq (l : List Bool) (i : Nat) (v : Bool) (h : i < l.length) :
    (listSet l i v).getD i false = v := by
  induction l generalizing i with
  | nil => simp at h
  | cons x rest ih =>
    cases i with
    | zero => rfl
    | succ j => simpa [listSet] using ih j (by simpa using h)

theorem listSet_getD_ne (l : List Bool) (i j : Nat) (v : Bool) (h : i ≠ j) :
    (listSet l i v).getD j false = l.getD j false := by
  induction l generalizing i j with
  | nil => rfl
  | cons x rest ih =>
    cases i with
    | zero =>
      cases j with
      | zero => exact absurd rfl h
      | succ j' => rfl
    | succ i' =>
      cases j with
      | zero => rfl
      | succ j' => simpa [listSet] using ih i' j' (by omega)

theorem countTrue_listSet_true (l : List Bool) (i : Nat) (h : i < l.length)
    (hf : l.getD i false = false) :
    countTrue (listSet l i true) = countTrue l + 1 := by
  induction l generalizing i with
  | nil => simp at h
  | cons x rest ih =>
    cases i with
    | zero =>
      have : x = false := hf
      subst this
      simp [listSet, countTrue]
    | succ j =>
      have hj : j < rest.length := by simpa using h
      have hrec := ih j hj (by simpa using hf)
      simp only [listSet, countTrue, List.countP_cons] at *
      omega

theorem mem_unmatchedIndicesAux (m : List Bool) :
    ∀ (n x : Nat), x ∈ unmatchedIndicesAux m n ↔
      ∃ j, j < m.length ∧ x = n + j ∧ m.getD j false = false := by
  induction m with
  | nil => intro n x; simp [unmatchedIndicesAux]
  | cons b rest ih =>
    intro n x
    cases b with
    | true =>
      rw [show unmatchedIndicesAux (true :: rest) n = unmatchedIndicesAux rest (n + 1)
        from rfl, ih]
      constructor
      · rintro ⟨j, hj, hx, hg⟩
        exact ⟨j + 1, by simp only [List.length_cons]; omega, by omega, by simpa using hg⟩
      · rintro ⟨j, hj, hx, hg⟩
        cases j with
        | zero => simp at hg
        | succ j' =>
          exact ⟨j', by simp only [List.length_cons] at hj; omega, by omega,
            by simpa using hg⟩
    | false =>
      rw [show unmatchedIndicesAux (false :: rest) n = n :: unmatchedIndicesAux rest (n + 1)
        from rfl, List.mem_cons, ih]
      constructor
      · rintro (rfl | ⟨j, hj, hx, hg⟩)
        · exact ⟨0, by simp, by omega, by simp⟩
        · exact ⟨j + 1, by simp only [List.length_cons]; omega, by omega, by simpa using hg⟩
      · rintro ⟨j, hj, hx, hg⟩
        cases j with
        | zero => left; omega
        | succ j' =>
          right
          exact ⟨j', by simp only [List.length_cons] at hj; omega, by omega,
            by simpa using hg⟩

theorem length_candidatesOf_eq (refE : List Val) :
    ∀ (m : List Bool) (n : Nat), refE.length = m.length →
      (candidatesOf refE m).length = (unmatchedIndicesAux m n).length := by
  induction refE with
  | nil =>
    intro m n h
    cases m with
    | nil => rfl
    | cons b rest => simp at h
  | cons r rest ih =>
    intro m n h
    cases m with
    | nil => simp at h
    | cons b brest =>
      cases b with
      | true => simpa [candidatesOf, unmatchedIndicesAux] using ih brest (n + 1) (by simpa using h)
      | false => simpa [candidatesOf, unmatchedIndicesAux] using ih brest (n + 1) (by simpa using h)

theorem bestScan_bound (l : List Rat) :
    ∀ (i0 : Nat) (b : Int × Rat), (b.1 ≥ 0 → b.1.toNat < i0) →
      ((bestScan l i0 b).1 ≥ 0 → (bestScan l i0 b).1.toNat < i0 + l.length) := by
  induction l with
  | nil =>
    intro i0 b hb hge
    simpa using hb hge
  | cons s rest ih =>
    intro i0 b hb
    simp only [bestScan, List.length_cons]
    have h' : ((if s > b.2 then ((i0 : Int), s) else b).1 ≥ 0 →
        (if s > b.2 then ((i0 : Int), s) else b).1.toNat < i0 + 1) := by
      by_cases hc : s > b.2
      · simp [hc]
      · simp only [hc, if_neg, if_false]
        intro hge
        exact Nat.lt_succ_of_lt (hb hge)
    intro hge
    have := ih (i0 + 1) _ h' hge
    omega

theorem findBestMatch_bound (e : Val) (cands : List Val) (t : Rat)
    (h : (findBestMatch e cands t).1 ≥ 0) :
    (findBestMatch e cands t).1.toNat < cands.length := by
  unfold findBestMatch at *
  by_cases hc : (bestScan (cands.map fun c => seqRatio (entityToString e) (entityToString c))
      0 (-1, 0)).2 ≥ t
  · simp only [hc, if_pos] at h ⊢
    have := bestScan_bound
      (cands.map fun c => seqRatio (entityToString e) (entityToString c)) 0 (-1, 0)
      (by intro hge; simp at hge) h
    simpa using this
  · simp only [hc, if_neg, if_false] at h
    simp at h

theorem getD_mem_of_lt (l : List Nat) (k d : Nat) (h : k < l.length) : l.getD k d ∈ l := by
  induction l generalizing k with
  | nil => simp at h
  | cons x rest ih =>
    cases k with
    | zero => simp
    | succ j =>
      simp only [List.getD_cons_succ, List.mem_cons]
      exact Or.inr (ih j (by simpa using h))

/-- Loop invariant tying the boolean arrays of `entity_array_f1` to the
explicit match list: flags mark exactly the matched indices, both
projections of the match list are duplicate-free, and each flag count
equals the number of matches. -/
def MatchInv (refE : List Val) (st : MatchState) : Prop :=
  st.refMatched.length = refE.length ∧
  (∀ r, st.refMatched.getD r false = true ↔ r ∈ st.pairs.map Prod.snd) ∧
  (∀ q, st.predMatched.getD q false = true ↔ q ∈ st.pairs.map Prod.fst) ∧
  (st.pairs.map Prod.fst).Nodup ∧
  (st.pairs.map Prod.snd).Nodup ∧
  countTrue st.refMatched = st.pairs.length ∧
  countTrue st.predMatched = st.pairs.length

theorem greedyStep_inv (t : Rat) (refE : List Val) (st : MatchState) (pIdx : Nat) (e : Val)
    (hinv : MatchInv refE st)
    (hq : pIdx ∉ st.pairs.map Prod.fst)
    (hqlen : pIdx < st.predMatched.length) :
    MatchInv refE (greedyStep t refE st (pIdx, e)) ∧
    (greedyStep t refE st (pIdx, e)).predMatched.length = st.predMatched.length ∧
    (∀ q ∈ (greedyStep t refE st (pIdx, e)).pairs.map Prod.fst,
      q ∈ st.pairs.map Prod.fst ∨ q = pIdx) := by
  obtain ⟨hlen, hIR, hIP, hndf, hnds, hcr, hcp⟩ := hinv
  unfold greedyStep
  by_cases hb : (findBestMatch e (candidatesOf refE st.refMatched) t).1 ≥ 0
  · simp only [hb, if_pos]
    have hk : (findBestMatch e (candidatesOf refE st.refMatched) t).1.toNat <
        (candidatesOf refE st.refMatched).length := findBestMatch_bound _ _ _ hb
    have hlc : (candidatesOf refE st.refMatched).length =
        (unmatchedIndicesAux st.refMatched 0).length :=
      length_candidatesOf_eq refE st.refMatched 0 hlen.symm
    have hkui : (findBestMatch e (candidatesOf refE st.refMatched) t).1.toNat <
        (unmatchedIndices st.refMatched).length := by
      unfold unmatchedIndices; omega
    set actual := (unmatchedIndices st.refMatched).getD
      (findBestMatch e (candidatesOf refE st.refMatched) t).1.toNat 0 with hadef
    have hamem : actual ∈ unmatchedIndices st.refMatched :=
      getD_mem_of_lt _ _ _ hkui
    obtain ⟨j, hj, haj, hag⟩ := (mem_unmatchedIndicesAux st.refMatched 0 actual).mp hamem
    have haltB : actual < st.refMatched.length := by omega
    have hafalse : st.refMatched.getD actual false = false := by
      rw [haj]; simpa using hag
    have hanotin : actual ∉ st.pairs.map Prod.snd := by
      intro hmem
      rw [← hIR actual] at hmem
      rw [hafalse] at hmem
      exact Bool.false_ne_true hmem
    have hpfalse : st.predMatched.getD pIdx false = false := by
      by_cases hp : st.predMatched.getD pIdx false = true
      · exact absurd ((hIP pIdx).mp hp) hq
      · simpa using hp
    refine ⟨⟨?_, ?_, ?_, ?_, ?_, ?_, ?_⟩, ?_, ?_⟩
    · simpa [listSet_length] using hlen
    · intro r
      by_cases hr : r = actual
      · subst hr
        rw [listSet_getD_eq _ _ _ haltB]
        simp
      · rw [listSet_getD_ne _ _ _ _ (fun he => hr he.symm)]
        simp only [List.map_append, List.mem_append, List.map_cons, List.map_nil,
          List.mem_singleton]
        rw [hIR r]
        simp [hr]
    · intro q
      by_cases hqq : q = pIdx
      · subst hqq
        rw [listSet_getD_eq _ _ _ hqlen]
        simp
      · rw [listSet_getD_ne _ _ _ _ (fun he => hqq he.symm)]
        simp only [List.map_append, List.mem_append, List.map_cons, List.map_nil,
          List.mem_singleton]
        rw [hIP q]
        simp [hqq]
    · rw [List.map_append, List.nodup_append]
      refine ⟨hndf, by simp, ?_⟩
      intro a ha hb2
      simp only [List.map_cons, List.map_nil, List.mem_singleton] at hb2
      subst hb2
      exact hq ha
    · rw [List.map_append, List.nodup_append]
      refine ⟨hnds, by simp, ?_⟩
      intro a ha hb2
      simp only [List.map_cons, List.map_nil, List.mem_singleton] at hb2
      subst hb2
      exact hanotin ha
    · rw [countTrue_listSet_true _ _ haltB hafalse]
      simp [hcr]
    · rw [countTrue_listSet_true _ _ hqlen hpfalse]
      simp [hcp]
    · simp [listSet_length]
    · intro q hmem
      simp only [List.map_append, List.mem_append, List.map_cons, List.map_nil,
        List.mem_singleton] at hmem
      exact hmem
  · simp only [hb, if_neg, if_false]
    refine ⟨⟨hlen, hIR, hIP, hndf, hnds, hcr, hcp⟩, by simp, fun q hm => Or.inl hm⟩

theorem greedyLoop_inv (t : Rat) (refE : List Val) :
    ∀ (rem : List Val) (pIdx : Nat) (st : MatchState),
      MatchInv refE st →
      (∀ q ∈ st.pairs.map Prod.fst, q < pIdx) →
      st.predMatched.length = pIdx + rem.length →
      MatchInv refE (greedyLoop t refE rem pIdx st) ∧
      (greedyLoop t refE rem pIdx st).predMatched.length = st.predMatched.length := by
  intro rem
  induction rem with
  | nil => intro pIdx st hinv hq hlen; exact ⟨hinv, rfl⟩
  | cons e rest ih =>
    intro pIdx st hinv hq hlen
    have hqn : pIdx ∉ st.pairs.map Prod.fst := fun hmem => absurd (hq pIdx hmem) (by omega)
    have hqlen : pIdx < st.predMatched.length := by
      rw [hlen]; simp only [List.length_cons]; omega
    obtain ⟨hinv', hplen', hfst'⟩ := greedyStep_inv t refE st pIdx e hinv hqn hqlen
    have hq' : ∀ q ∈ (greedyStep t refE st (pIdx, e)).pairs.map Prod.fst, q < pIdx + 1 := by
      intro q hmem
      rcases hfst' q hmem with h | h
      · exact Nat.lt_succ_of_lt (hq q h)
      · omega
    have hlen' : (greedyStep t refE st (pIdx, e)).predMatched.length =
        (pIdx + 1) + rest.length := by
      rw [hplen', hlen]; simp; omega
    obtain ⟨hinvf, hplenf⟩ := ih (pIdx + 1) _ hinv' hq' hlen'
    exact ⟨hinvf, by rw [greedyLoop]; rw [hplenf, hplen']⟩

theorem getD_all_false (l : List Bool) (hl : ∀ x ∈ l, x = false) (r : Nat) :
    l.getD r false = false := by
  induction l generalizing r with
  | nil => rfl
  | cons x rest ih =>
    cases r with
    | zero => exact hl x (by simp)
    | succ j => exact ih (fun y hy => hl y (by simp [hy])) j

/-- C4. The matching constructed inside `entity_array_f1` is a partial
injection in both directions: no predicted index and no reference index
occurs in two matches; consequently the true-positive count
(`sum(pred_matched)`) is at most `min(#pred, #ref)`. -/
theorem entity_match_injective (t : Rat) (predE refE : List Val) :
    ((greedyMatch t predE refE).pairs.map Prod.fst).Nodup ∧
    ((greedyMatch t predE refE).pairs.map Prod.snd).Nodup ∧
    countTrue (greedyMatch t predE refE).predMatched
      = (greedyMatch t predE refE).pairs.length ∧
    countTrue (greedyMatch t predE refE).predMatched ≤ min predE.length refE.length := by
  have hinit : MatchInv refE ⟨refE.map fun _ => false, predE.map fun _ => false, []⟩ := by
    refine ⟨by simp, ?_, ?_, by simp, by simp, ?_, ?_⟩
    · intro r
      rw [getD_all_false _ (by simp)]
      simp
    · intro q
      rw [getD_all_false _ (by simp)]
      simp
    · simp [countTrue, List.countP_eq_zero]
    · simp [countTrue, List.countP_eq_zero]
  obtain ⟨⟨hlen, _, _, hndf, hnds, hcr, hcp⟩, hplen⟩ :=
    greedyLoop_inv t refE predE 0 ⟨refE.map fun _ => false, predE.map fun _ => false, []⟩
      hinit (by simp) (by simp)
  refine ⟨hndf, hnds, hcp, ?_⟩
  have h1 : countTrue (greedyMatch t predE refE).predMatched ≤ predE.length := by
    have := List.countP_le_length (p := id)
      (l := (greedyMatch t predE refE).predMatched)
    unfold countTrue at *
    unfold greedyMatch at *
    rw [hplen] at this
    simpa using this
  have h2 : countTrue (greedyMatch t predE refE).predMatched ≤ refE.length := by
    have hc : countTrue (greedyMatch t predE refE).refMatched ≤ refE.length := by
      have := List.countP_le_length (p := id)
        (l := (greedyMatch t predE refE).refMatched)
      unfold greedyMatch at *
      rw [hlen] at this
      exact this
    unfold greedyMatch at *
    omega
  exact le_min h1 h2

/-! ## Coverage scorer (`schema_coverage` in `metrics.py`) -/

/-- The fixed section-name → field-path table of `schema_coverage`. -/
def sectionsList : List (String × List String) :=
  [("visit motivation", ["visit motivation"]),
   ("admission", ["admission"]),
   ("patient information", ["patient information"]),
   ("patient medical history", ["patient medical history"]),
   ("surgeries", ["surgeries"]),
   ("symptoms", ["symptoms"]),
   ("medical examinations", ["medical examinations"]),
   ("diagnosis tests", ["diagnosis tests"]),
   ("treatments", ["treatments"]),
   ("discharge", ["discharge"])]

/-- The per-field-path populated test of `schema_coverage`: non-empty
value; a list needs an element that is non-empty (for dict elements: some
non-empty sub-value), a dict needs a non-empty value, a scalar counts. -/
def valuePopulated : Option Val → Bool
  | none => false
  | some v =>
    if isEmptyV v then false
    else
      match v with
      | .vList xs =>
        if xs.length > 0 then
          xs.any fun item =>
            match item with
            | .vDict kvs => kvs.any fun kv => !isEmptyV kv.2
            | _ => !isEmptyV item
        else false
      | .vDict kvs => kvs.any fun kv => !isEmptyV kv.2
      | _ => true

/-- `schema_coverage(pred, ref)` from `metrics.py` (`ref` is accepted and
ignored by the source; the embedding drops it). -/
def schemaCoverage (pred : List (String × Val)) : List (String × Rat) :=
  sectionsList.map fun sec =>
    (sec.1, if sec.2.any (fun fp => valuePopulated (pred.lookup fp)) then 1 else 0)

mutual

/-- Whether a value contains a non-empty scalar leaf anywhere. -/
def hasNonemptyLeafV : Val → Bool
  | .vList xs => hasNonemptyLeafList xs
  | .vDict kvs => hasNonemptyLeafDict kvs
  | .vNull => false
  | .vStr s => !(pyStrip s == "")
  | .vInt _ => true
  | .vBool _ => true

def hasNonemptyLeafList : List Val → Bool
  | [] => false
  | x :: rest => hasNonemptyLeafV x || hasNonemptyLeafList rest

def hasNonemptyLeafDict : List (String × Val) → Bool
  | [] => false
  | kv :: rest => hasNonemptyLeafV kv.2 || hasNonemptyLeafDict rest

end

def hasNonemptyLeafO : Option Val → Bool
  | none => false
  | some v => hasNonemptyLeafV v

theorem hasNonemptyLeafList_iff (xs : List Val) :
    hasNonemptyLeafList xs = true ↔ ∃ x ∈ xs, hasNonemptyLeafV x = true := by
  induction xs with
  | nil => simp [hasNonemptyLeafList]
  | cons x rest ih => simp [hasNonemptyLeafList, ih]

theorem hasNonemptyLeafDict_iff (kvs : List (String × Val)) :
    hasNonemptyLeafDict kvs = true ↔ ∃ kv ∈ kvs, hasNonemptyLeafV kv.2 = true := by
  induction kvs with
  | nil => simp [hasNonemptyLeafDict]
  | cons kv rest ih => simp [hasNonemptyLeafDict, ih]

theorem not_isEmptyV_of_hasLeaf (v : Val) (h : hasNonemptyLeafV v = true) :
    isEmptyV v = false := by
  cases v with
  | vNull => simp [hasNonemptyLeafV] at h
  | vStr s =>
    simp only [hasNonemptyLeafV, Bool.not_eq_true'] at h
    simp only [isEmptyV]
    simpa using h
  | vInt n => rfl
  | vBool b => rfl
  | vList xs =>
    rw [show hasNonemptyLeafV (Val.vList xs) = hasNonemptyLeafList xs from rfl,
      hasNonemptyLeafList_iff] at h
    obtain ⟨x, hx, _⟩ := h
    cases xs with
    | nil => simp at hx
    | cons a l => rfl
  | vDict kvs =>
    rw [show hasNonemptyLeafV (Val.vDict kvs) = hasNonemptyLeafDict kvs from rfl,
      hasNonemptyLeafDict_iff] at h
    obtain ⟨kv, hkv, _⟩ := h
    cases kvs with
    | nil => simp at hkv
    | cons a l => rfl

theorem valuePopulated_of_hasLeaf (v : Val) (h : hasNonemptyLeafV v = true) :
    valuePopulated (some v) = true := by
  have hne := not_isEmptyV_of_hasLeaf v h
  cases v with
  | vNull => simp [hasNonemptyLeafV] at h
  | vStr s => simp [valuePopulated, hne]
  | vInt n => simp [valuePopulated, hne]
  | vBool b => simp [valuePopulated, hne]
  | vList xs =>
    rw [show hasNonemptyLeafV (Val.vList xs) = hasNonemptyLeafList xs from rfl,
      hasNonemptyLeafList_iff] at h
    obtain ⟨x, hx, hxl⟩ := h
    have hlen : xs.length > 0 := by
      cases xs with
      | nil => simp at hx
      | cons a l => simp
    simp only [valuePopulated, hne, Bool.false_eq_true, if_false, if_neg, hlen, if_pos]
    rw [List.any_eq_true]
    refine ⟨x, hx, ?_⟩
    cases x with
    | vDict kvs =>
      rw [show hasNonemptyLeafV (Val.vDict kvs) = hasNonemptyLeafDict kvs from rfl,
        hasNonemptyLeafDict_iff] at hxl
      obtain ⟨kv, hkv, hkvl⟩ := hxl
      rw [List.any_eq_true]
      exact ⟨kv, hkv, by simp [not_isEmptyV_of_hasLeaf _ hkvl]⟩
    | vNull => simp [hasNonemptyLeafV] at hxl
    | vStr s => simp [not_isEmptyV_of_hasLeaf _ hxl]
    | vInt n => simp [not_isEmptyV_of_hasLeaf _ hxl]
    | vBool b => simp [not_isEmptyV_of_hasLeaf _ hxl]
    | vList ys => simp [not_isEmptyV_of_hasLeaf _ hxl]
  | vDict kvs =>
    rw [show hasNonemptyLeafV (Val.vDict kvs) = hasNonemptyLeafDict kvs from rfl,
      hasNonemptyLeafDict_iff] at h
    obtain ⟨kv, hkv, hkvl⟩ := h
    simp only [valuePopulated, hne, Bool.false_eq_true, if_false, if_neg]
    rw [List.any_eq_true]
    exact ⟨kv, hkv, by simp [not_isEmptyV_of_hasLeaf _ hkvl]⟩

theorem valuePopulated_false_of_empty (ov : Option Val) (h : isEmptyO ov = true) :
    valuePopulated ov = false := by
  cases ov with
  | none => rfl
  | some v => simp [valuePopulated, show isEmptyV v = true from h]

theorem lookup_map_pairs {β γ : Type} (l : List (String × β)) (g : String × β → γ)
    (p : String × β) (hp : p ∈ l) (hnd : (l.map Prod.fst).Nodup) :
    (l.map fun q => (q.1, g q)).lookup p.1 = some (g p) := by
  induction l with
  | nil => simp at hp
  | cons hd rest ih =>
    simp only [List.map_cons, List.nodup_cons] at hnd
    rcases List.mem_cons.mp hp with h | h
    · subst h; simp [List.lookup]
    · have hk : p.1 ≠ hd.1 := by
        intro he
        exact hnd.1 (he ▸ (List.mem_map.mpr ⟨p, h, rfl⟩))
      simp only [List.map_cons, List.lookup]
      have hb : (p.1 == hd.1) = false := by simp [hk]
      rw [hb]
      exact ih h hnd.2

theorem sections_keys_nodup : (sectionsList.map Prod.fst).Nodup := by decide

/-- C10. `schema_coverage` marks a section 1.0 exactly when its field
value is populated: an all-empty record gets 0.0 everywhere; a record
whose only non-empty content is a non-empty leaf inside one section gets
1.0 exactly there; a 1.0 on a list (resp. record) section implies some
non-empty element (resp. sub-field). -/
theorem schema_coverage_spec (pred : List (String × Val)) :
    (∀ p ∈ sectionsList,
      (schemaCoverage pred).lookup p.1 =
        some (if p.2.any (fun fp => valuePopulated (pred.lookup fp)) then (1 : Rat) else 0)) ∧
    ((∀ p ∈ sectionsList, ∀ fp ∈ p.2, isEmptyO (pred.lookup fp) = true) →
      ∀ p ∈ sectionsList, (schemaCoverage pred).lookup p.1 = some 0) ∧
    (∀ p₀ ∈ sectionsList, ∀ fp₀ ∈ p₀.2,
      hasNonemptyLeafO (pred.lookup fp₀) = true →
      (∀ p ∈ sectionsList, p ≠ p₀ → ∀ fp ∈ p.2, isEmptyO (pred.lookup fp) = true) →
      ((schemaCoverage pred).lookup p₀.1 = some 1 ∧
        ∀ p ∈ sectionsList, p ≠ p₀ → (schemaCoverage pred).lookup p.1 = some 0)) ∧
    (∀ xs, valuePopulated (some (Val.vList xs)) = true → ∃ x ∈ xs, isEmptyV x = false) ∧
    (∀ kvs, valuePopulated (some (Val.vDict kvs)) = true →
      ∃ kv ∈ kvs, isEmptyV kv.2 = false) := by
  have hlk : ∀ p ∈ sectionsList,
      (schemaCoverage pred).lookup p.1 =
        some (if p.2.any (fun fp => valuePopulated (pred.lookup fp)) then (1 : Rat) else 0) :=
    fun p hp => lookup_map_pairs sectionsList
      (fun q => if q.2.any (fun fp => valuePopulated (pred.lookup fp)) then (1 : Rat) else 0)
      p hp sections_keys_nodup
  refine ⟨hlk, ?_, ?_, ?_, ?_⟩
  · intro hall p hp
    rw [hlk p hp]
    have : p.2.any (fun fp => valuePopulated (pred.lookup fp)) = false := by
      rw [List.any_eq_false]
      intro fp hfp
      simp [valuePopulated_false_of_empty _ (hall p hp fp hfp)]
    rw [this]
    simp
  · intro p₀ hp₀ fp₀ hfp₀ hleaf hothers
    constructor
    · rw [hlk p₀ hp₀]
      have : p₀.2.any (fun fp => valuePopulated (pred.lookup fp)) = true := by
        rw [List.any_eq_true]
        refine ⟨fp₀, hfp₀, ?_⟩
        cases hv : pred.lookup fp₀ with
        | none => rw [hv] at hleaf; simp [hasNonemptyLeafO] at hleaf
        | some v =>
          rw [hv] at hleaf
          exact valuePopulated_of_hasLeaf v hleaf
      rw [this]
      simp
    · intro p hp hne
      rw [hlk p hp]
      have : p.2.any (fun fp => valuePopulated (pred.lookup fp)) = false := by
        rw [List.any_eq_false]
        intro fp hfp
        simp [valuePopulated_false_of_empty _ (hothers p hp hne fp hfp)]
      rw [this]
      simp
  · intro xs hpop
    by_cases hne : isEmptyV (Val.vList xs)
    · rw [valuePopulated_false_of_empty _ (by simpa using hne)] at hpop
      exact absurd hpop (by simp)
    · simp only [valuePopulated, hne, Bool.false_eq_true, if_false, if_neg] at hpop
      by_cases hlen : xs.length > 0
      · simp only [hlen, if_pos] at hpop
        rw [List.any_eq_true] at hpop
        obtain ⟨x, hx, hxp⟩ := hpop
        refine ⟨x, hx, ?_⟩
        cases x with
        | vDict kvs =>
          rw [List.any_eq_true] at hxp
          obtain ⟨kv, hkv, _⟩ := hxp
          cases kvs with
          | nil => simp at hkv
          | cons a l => rfl
        | vNull => simpa using hxp
        | vStr s => simpa using hxp
        | vInt n => simpa using hxp
        | vBool b => simpa using hxp
        | vList ys => simpa using hxp
      · simp [hlen] at hpop
  · intro kvs hpop
    by_cases hne : isEmptyV (Val.vDict kvs)
    · rw [valuePopulated_false_of_empty _ (by simpa using hne)] at hpop
      exact absurd hpop (by simp)
    · simp only [valuePopulated, hne, Bool.false_eq_true, if_false, if_neg] at hpop
      rw [List.any_eq_true] at hpop
      obtain ⟨kv, hkv, hkvp⟩ := hpop
      exact ⟨kv, hkv, by simpa using hkvp⟩

section RatEvalC

attribute [local semireducible] Rat.mul Rat.add Rat.inv Rat.sub

/-- C10 witness: a record with one non-empty leaf in `symptoms` covers
exactly that section. -/
theorem schema_coverage_witness :
    (schemaCoverage [("symptoms", Val.vList [Val.vDict [("name", Val.vStr "fever")]])]).lookup
        "symptoms" = some 1 ∧
    (schemaCoverage [("symptoms", Val.vList [Val.vDict [("name", Val.vStr "fever")]])]).lookup
        "discharge" = some 0 := by
  obtain ⟨_, _, h3, _, _⟩ :=
    schema_coverage_spec [("symptoms", Val.vList [Val.vDict [("name", Val.vStr "fever")]])]
  have hm := h3 ("symptoms", ["symptoms"]) (by decide) "symptoms" (by decide)
    (by decide) (by decide)
  exact ⟨hm.1, hm.2 ("discharge", ["discharge"]) (by decide) (by decide)⟩

end RatEvalC

/-! ## Compression analyzer (`_calculate_compression` in `run_eval.py`)

The ACN dataset iterator (`iter_acn_hf(limit=limit)`) is an external
collaborator; it is modelled by the parameter `allSamples`, the list of
the first `limit` reference notes.  An output object is modelled by its
optional `output_summary` string. -/

def backtick : Char := Char.ofNat 96

/-- `_strip_markdown_code_block(text)` from `run_eval.py`. -/
def stripMarkdownCodeBlock (text : String) : String :=
  let cs := pyStripChars text.data
  let cs :=
    if cs.take 3 = [backtick, backtick, backtick] then
      let cs := cs.drop 3
      let cs :=
        if cs ≠ [] ∧ cs.head? ≠ some '\n' then
          cs.dropWhile fun c => "jsonhyamloot".data.contains c
        else cs
      cs.dropWhile (· = '\n')
    else cs
  let cs :=
    if cs.reverse.take 3 = [backtick, backtick, backtick] then
      ((cs.reverse.drop 3).dropWhile pyIsSpace).reverse
    else cs
  ⟨cs⟩

structure CompSample where
  sample : Nat
  input_chars : Nat
  output_chars : Nat
  compression : Rat
deriving DecidableEq

/-- The `for i, obj in enumerate(output_objs)` loop of
`_calculate_compression`: skips objects without `output_summary` and
indices beyond the loaded samples; accumulates
`(total_input, total_output, per_sample, compression_ratios)`. -/
def compLoop (allSamples : List String) :
    List (Option String) → Nat → Nat × Nat × List CompSample × List Rat
  | [], _ => (0, 0, [], [])
  | o :: rest, i =>
    let r := compLoop allSamples rest (i + 1)
    match o with
    | none => r
    | some outText =>
      if i < allSamples.length then
        let inputLen := (allSamples.getD i "").length
        let outLen := (stripMarkdownCodeBlock outText).length
        let cmp : Rat := if inputLen > 0 then (outLen : Rat) / (inputLen : Rat) else 0
        (inputLen + r.1, outLen + r.2.1,
          ⟨i, inputLen, outLen, cmp⟩ :: r.2.2.1, cmp :: r.2.2.2)
      else r

structure CompResult where
  total_input_chars : Nat
  total_output_chars : Nat
  average_input_chars : Rat
  average_output_chars : Rat
  compressionRatio : Rat
  per_sample : List CompSample
  average_compression : Rat

/-- `_calculate_compression(output_objs, limit)` from `run_eval.py`, with
the dataset's first `limit` notes passed as `allSamples`. -/
def calcCompression (outputObjs : List (Option String)) (allSamples : List String) :
    CompResult :=
  let datasetAvgInput : Rat :=
    if allSamples.isEmpty then 0
    else ((allSamples.map String.length).sum : Rat) / (allSamples.length : Rat)
  let r := compLoop allSamples outputObjs 0
  let totalInput := r.1
  let totalOutput := r.2.1
  let perSample := r.2.2.1
  let ratios := r.2.2.2
  { total_input_chars := totalInput
    total_output_chars := totalOutput
    average_input_chars := datasetAvgInput
    average_output_chars :=
      if perSample.length > 0 then (totalOutput : Rat) / (perSample.length : Rat) else 0
    compressionRatio :=
      if totalInput > 0 then (totalOutput : Rat) / (totalInput : Rat) else 0
    per_sample := perSample
    average_compression :=
      if ratios.isEmpty then 0 else ratios.sum / (ratios.length : Rat) }

/-- Claim-side list of `(index, output text)` pairs actually paired with
a loaded note. -/
def pairedSpec (allSamples : List String) : List (Option String) → Nat → List (Nat × String)
  | [], _ => []
  | o :: rest, i =>
    match o with
    | some outText =>
      if i < allSamples.length then (i, outText) :: pairedSpec allSamples rest (i + 1)
      else pairedSpec allSamples rest (i + 1)
    | none => pairedSpec allSamples rest (i + 1)

theorem compLoop_spec (allSamples : List String) :
    ∀ (objs : List (Option String)) (i : Nat),
      (compLoop allSamples objs i).2.2.1 =
        (pairedSpec allSamples objs i).map (fun io =>
          ⟨io.1, (allSamples.getD io.1 "").length, (stripMarkdownCodeBlock io.2).length,
            if (allSamples.getD io.1 "").length > 0 then
              ((stripMarkdownCodeBlock io.2).length : Rat) / ((allSamples.getD io.1 "").length : Rat)
            else 0⟩) ∧
      (compLoop allSamples objs i).2.1 =
        ((pairedSpec allSamples objs i).map fun io =>
          (stripMarkdownCodeBlock io.2).length).sum := by
  intro objs
  induction objs with
  | nil => intro i; exact ⟨rfl, rfl⟩
  | cons o rest ih =>
    intro i
    obtain ⟨ih1, ih2⟩ := ih (i + 1)
    cases o with
    | none => exact ⟨ih1, ih2⟩
    | some outText =>
      have hpsEq : pairedSpec allSamples (some outText :: rest) i =
          if i < allSamples.length then
            (i, outText) :: pairedSpec allSamples rest (i + 1)
          else pairedSpec allSamples rest (i + 1) := rfl
      by_cases hi : i < allSamples.length
      · constructor
        · show (if i < allSamples.length then _ else
              compLoop allSamples rest (i + 1)).2.2.1 = _
          rw [if_pos hi, hpsEq, if_pos hi]
          simp only [List.map_cons]
          rw [← ih1]
        · show (if i < allSamples.length then _ else
              compLoop allSamples rest (i + 1)).2.1 = _
          rw [if_pos hi, hpsEq, if_pos hi]
          simp only [List.map_cons, List.sum_cons]
          rw [← ih2]
      · constructor
        · show (if i < allSamples.length then _ else
              compLoop allSamples rest (i + 1)).2.2.1 = _
          rw [if_neg hi, hpsEq, if_neg hi]
          exact ih1
        · show (if i < allSamples.length then _ else
              compLoop allSamples rest (i + 1)).2.1 = _
          rw [if_neg hi, hpsEq, if_neg hi]
          exact ih2

/-- C8. Each per-sample compression is `output/input` guarded at zero;
`average_input_chars` is the mean over the loaded reference notes alone
(independent of the outputs); `average_output_chars` is the mean stripped
output length over the actually paired samples. -/
theorem calc_compression_spec (objs : List (Option String)) (samples : List String) :
    (∀ e ∈ (calcCompression objs samples).per_sample,
        e.compression =
          if e.input_chars = 0 then 0 else (e.output_chars : Rat) / (e.input_chars : Rat)) ∧
    (calcCompression objs samples).average_input_chars =
      (if samples = [] then 0
       else ((samples.map String.length).sum : Rat) / (samples.length : Rat)) ∧
    (calcCompression objs samples).per_sample =
      ((pairedSpec samples objs 0).map fun io =>
        ⟨io.1, (samples.getD io.1 "").length, (stripMarkdownCodeBlock io.2).length,
          if (samples.getD io.1 "").length > 0 then
            ((stripMarkdownCodeBlock io.2).length : Rat) / ((samples.getD io.1 "").length : Rat)
          else 0⟩) ∧
    (calcCompression objs samples).average_output_chars =
      (if pairedSpec samples objs 0 = [] then 0
       else (((pairedSpec samples objs 0).map fun io =>
           (stripMarkdownCodeBlock io.2).length).sum : Rat) /
         ((pairedSpec samples objs 0).length : Rat)) := by
  obtain ⟨h1, h2⟩ := compLoop_spec samples objs 0
  have ite_pos_zero : ∀ (L : Nat) (x : Rat),
      (if 0 < L then x else 0) = (if L = 0 then 0 else x) := by
    intro L x
    by_cases h : L = 0
    · simp [h]
    · simp [h, Nat.pos_of_ne_zero h]
  refine ⟨?_, ?_, ?_, ?_⟩
  · intro e he
    have he' : e ∈ (compLoop samples objs 0).2.2.1 := he
    rw [h1] at he'
    obtain ⟨io, _, rfl⟩ := List.mem_map.mp he'
    exact ite_pos_zero _ _
  · show (if samples.isEmpty then (0 : Rat) else _) = _
    by_cases hs : samples = []
    · simp [hs]
    · have : samples.isEmpty = false := by
        cases samples with
        | nil => exact absurd rfl hs
        | cons a l => rfl
      simp [this, hs]
  · exact h1
  · show (if (compLoop samples objs 0).2.2.1.length > 0 then
        ((compLoop samples objs 0).2.1 : Rat) / ((compLoop samples objs 0).2.2.1.length : Rat)
      else 0) = _
    rw [h1, h2]
    by_cases hp : pairedSpec samples objs 0 = []
    · simp [hp]
    · have hlen : 0 < (pairedSpec samples objs 0).length := by
        cases h : pairedSpec samples objs 0 with
        | nil => exact absurd h hp
        | cons a l => simp [h]
      simp [hp, List.length_map, hlen]

section RatEvalD

attribute [local semireducible] Rat.mul Rat.add Rat.inv Rat.sub

set_option maxRecDepth 8000

/-- C8 witness: a 1000-character note paired with a 250-character
stripped output compresses to 0.25, and the input average is the
dataset-side 1000. -/
theorem calc_compression_witness :
    ((⟨0, 1000, 250, 1 / 4⟩ : CompSample) ∈
      (calcCompression [some (String.mk (List.replicate 250 'a'))]
        [String.mk (List.replicate 1000 'b')]).per_sample) ∧
    ((1 : Rat) / 4 = if (1000 : Nat) = 0 then 0 else (250 : Rat) / (1000 : Rat)) ∧
    (calcCompression [some (String.mk (List.replicate 250 'a'))]
        [String.mk (List.replicate 1000 'b')]).average_input_chars = 1000 := by
  have h := calc_compression_spec [some (String.mk (List.replicate 250 'a'))]
    [String.mk (List.replicate 1000 'b')]
  have hmem : (⟨0, 1000, 250, 1 / 4⟩ : CompSample) ∈
      (calcCompression [some (String.mk (List.replicate 250 'a'))]
        [String.mk (List.replicate 1000 'b')]).per_sample := by decide
  refine ⟨hmem, h.1 _ hmem, ?_⟩
  rw [h.2.1]
  decide

end RatEvalD

/-! ## Generation-retry loop (`parse_sample` in `pipeline/run.py`)

The model invocation, format parse and schema validation of one attempt
are modelled together: an attempt yields the raw response text plus
`none` (parse and validation succeeded) or `some msg` (the parse
exception message or the joined validator errors).  File writes are
modelled by the `rawWritten` field: the raw response persisted to the
sample's `.txt` path. -/

structure AttemptOutcome where
  content : String
  validationError : Option String

structure LoopResult where
  attempts : Nat
  success : Bool
  errors : List String
  rawWritten : String

/-- The `for attempt in range(settings.max_retries + 1)` loop of
`parse_sample`: `rem` is the number of remaining iterations, `attempt`
the 0-based attempt index, `att` the `attempts` counter so far. -/
def runAttempts (invoke : Nat → AttemptOutcome) :
    Nat → Nat → List String → String → Nat → LoopResult
  | 0, _, errors, lastContent, att => ⟨att, false, errors, lastContent⟩
  | rem + 1, attempt, errors, _lastContent, att =>
    let o := invoke attempt
    match o.validationError with
    | none => ⟨att + 1, true, errors, o.content⟩
    | some e => runAttempts invoke rem (attempt + 1) (errors ++ [e]) o.content (att + 1)

/-- `parse_sample`'s retry loop with a `max_retries + 1` attempt budget. -/
def parseSampleLoop (invoke : Nat → AttemptOutcome) (maxRetries : Nat) : LoopResult :=
  runAttempts invoke (maxRetries + 1) 0 [] "" 0

theorem runAttempts_bound (invoke : Nat → AttemptOutcome) :
    ∀ (rem attempt att : Nat) (errors : List String) (lastContent : String),
      (runAttempts invoke rem attempt errors lastContent att).attempts ≤ att + rem := by
  intro rem
  induction rem with
  | zero => intro attempt att errors lastContent; simp [runAttempts]
  | succ r ih =>
    intro attempt att errors lastContent
    rw [runAttempts]
    cases (invoke attempt).validationError with
    | none => simp
    | some e =>
      have := ih (attempt + 1) (att + 1) (errors ++ [e]) (invoke attempt).content
      simp only at this ⊢
      omega

theorem runAttempts_success (invoke : Nat → AttemptOutcome) :
    ∀ (rem attempt att : Nat) (errors : List String) (lastContent : String) (k : Nat),
      k < rem →
      (invoke (attempt + k)).validationError = none →
      (∀ j, j < k → (invoke (attempt + j)).validationError ≠ none) →
      (runAttempts invoke rem attempt errors lastContent att).attempts = att + k + 1 ∧
      (runAttempts invoke rem attempt errors lastContent att).success = true ∧
      (runAttempts invoke rem attempt errors lastContent att).errors.length =
        errors.length + k := by
  intro rem
  induction rem with
  | zero => intro _ _ _ _ k hk; omega
  | succ r ih =>
    intro attempt att errors lastContent k hk hval hfail
    cases k with
    | zero =>
      rw [runAttempts]
      simp only [Nat.add_zero] at hval
      rw [hval]
      exact ⟨rfl, rfl, rfl⟩
    | succ k' =>
      have h0 : (invoke attempt).validationError ≠ none := by
        have := hfail 0 (by omega)
        simpa using this
      rw [runAttempts]
      cases he : (invoke attempt).validationError with
      | none => exact absurd he h0
      | some e =>
        have hrec := ih (attempt + 1) (att + 1) (errors ++ [e]) (invoke attempt).content k'
          (by omega)
          (by rw [show attempt + 1 + k' = attempt + (k' + 1) by omega]; exact hval)
          (by
            intro j hj
            rw [show attempt + 1 + j = attempt + (j + 1) by omega]
            exact hfail (j + 1) (by omega))
        refine ⟨by rw [hrec.1]; omega, hrec.2.1, ?_⟩
        rw [hrec.2.2]
        simp only [List.length_append, List.length_cons, List.length_nil]
        omega

theorem runAttempts_exhaust (invoke : Nat → AttemptOutcome) :
    ∀ (rem attempt att : Nat) (errors : List String) (lastContent : String),
      0 < rem →
      (∀ j, j < rem → (invoke (attempt + j)).validationError ≠ none) →
      (runAttempts invoke rem attempt errors lastContent att).attempts = att + rem ∧
      (runAttempts invoke rem attempt errors lastContent att).success = false ∧
      (runAttempts invoke rem attempt errors lastContent att).rawWritten =
        (invoke (attempt + rem - 1)).content ∧
      (runAttempts invoke rem attempt errors lastContent att).errors.length =
        errors.length + rem := by
  intro rem
  induction rem with
  | zero => intro _ _ _ _ h; omega
  | succ r ih =>
    intro attempt att errors lastContent _ hfail
    have h0 : (invoke attempt).validationError ≠ none := by
      have := hfail 0 (by omega)
      simpa using this
    rw [runAttempts]
    cases he : (invoke attempt).validationError with
    | none => exact absurd he h0
    | some e =>
      cases r with
      | zero =>
        refine ⟨rfl, rfl, rfl, by simp [runAttempts]⟩
      | succ r' =>
        have hrec := ih (attempt + 1) (att + 1) (errors ++ [e]) (invoke attempt).content
          (by omega)
          (by
            intro j hj
            rw [show attempt + 1 + j = attempt + (j + 1) by omega]
            exact hfail (j + 1) (by omega))
        refine ⟨by rw [hrec.1]; omega, hrec.2.1, ?_, ?_⟩
        · rw [hrec.2.2.1,
            show attempt + 1 + (r' + 1) - 1 = attempt + (r' + 1 + 1) - 1 from by omega]
        · rw [hrec.2.2.2]
          simp only [List.length_append, List.length_cons, List.length_nil]
          omega

/-- C2. The retry loop makes at most `max_retries + 1` attempts; if the
(0-based) attempt `k` is the first to validate, it stops with
`attempts = k + 1`, `success = true` and exactly `k` recorded errors; if
no attempt validates, `attempts = max_retries + 1`, `success = false`,
and the last raw model response is the one persisted. -/
theorem parse_sample_retry (invoke : Nat → AttemptOutcome) (maxRetries : Nat) :
    (parseSampleLoop invoke maxRetries).attempts ≤ maxRetries + 1 ∧
    (∀ k, k ≤ maxRetries →
      (invoke k).validationError = none →
      (∀ j, j < k → (invoke j).validationError ≠ none) →
      (parseSampleLoop invoke maxRetries).attempts = k + 1 ∧
      (parseSampleLoop invoke maxRetries).success = true ∧
      (parseSampleLoop invoke maxRetries).errors.length = k) ∧
    ((∀ j, j ≤ maxRetries → (invoke j).validationError ≠ none) →
      (parseSampleLoop invoke maxRetries).attempts = maxRetries + 1 ∧
      (parseSampleLoop invoke maxRetries).success = false ∧
      (parseSampleLoop invoke maxRetries).rawWritten = (invoke maxRetries).content ∧
      (parseSampleLoop invoke maxRetries).errors.length = maxRetries + 1) := by
  unfold parseSampleLoop
  refine ⟨?_, ?_, ?_⟩
  · simpa using runAttempts_bound invoke (maxRetries + 1) 0 0 [] ""
  · intro k hk hval hfail
    have := runAttempts_success invoke (maxRetries + 1) 0 0 [] "" k (by omega)
      (by simpa using hval) (by simpa using hfail)
    exact ⟨by rw [this.1]; omega, this.2.1, by rw [this.2.2]; simp⟩
  · intro hfail
    have := runAttempts_exhaust invoke (maxRetries + 1) 0 0 [] "" (by omega)
      (by intro j hj; simpa using hfail j (by omega))
    refine ⟨by rw [this.1]; omega, this.2.1, ?_, by rw [this.2.2.2]; simp⟩
    rw [this.2.2.1]
    simp

/-- Invocation stub that fails validation twice, then succeeds. -/
def stubFailTwice : Nat → AttemptOutcome := fun n =>
  if n < 2 then ⟨"out" ++ natStr n, some "invalid"⟩ else ⟨"good", none⟩

/-- Invocation stub that always fails validation. -/
def stubAlwaysFail : Nat → AttemptOutcome := fun n =>
  ⟨"bad" ++ natStr n, some "invalid"⟩

/-- C2 witness: the spec's two scenarios — fail twice then succeed with
`max_retries = 3` gives `attempts = 3, success, 2 errors`; always fail
with `max_retries = 2` gives `attempts = 3, no success`, last raw
response persisted. -/
theorem parse_sample_retry_witness :
    ((parseSampleLoop stubFailTwice 3).attempts = 3 ∧
      (parseSampleLoop stubFailTwice 3).success = true ∧
      (parseSampleLoop stubFailTwice 3).errors.length = 2) ∧
    ((parseSampleLoop stubAlwaysFail 2).attempts = 3 ∧
      (parseSampleLoop stubAlwaysFail 2).success = false ∧
      (parseSampleLoop stubAlwaysFail 2).rawWritten = (stubAlwaysFail 2).content ∧
      (parseSampleLoop stubAlwaysFail 2).errors.length = 3) := by
  constructor
  · have h := (parse_sample_retry stubFailTwice 3).2.1 2 (by decide) (by decide)
      (by decide)
    exact ⟨h.1, h.2.1, h.2.2⟩
  · exact (parse_sample_retry stubAlwaysFail 2).2.2 (by decide)

/-! ## Greedy matching follows the claimed argmax discipline (C3) -/

/-- First position of `m` in a list of scores. -/
def firstIdxOf : List Rat → Rat → Option Nat
  | [], _ => none
  | s :: rest, m => if s = m then some 0 else (firstIdxOf rest m).map (· + 1)

/-- Closed form of `bestScan`: the running maximum, positioned at its
first strict improvement. -/
def specScan (l : List Rat) (i0 : Nat) (b : Int × Rat) : Int × Rat :=
  if l.foldl max b.2 > b.2 then
    match firstIdxOf l (l.foldl max b.2) with
    | some j => (((i0 + j : Nat) : Int), l.foldl max b.2)
    | none => b
  else b

theorem le_foldl_max : ∀ (l : List Rat) (s : Rat), s ≤ l.foldl max s := by
  intro l
  induction l with
  | nil => intro s; exact le_refl s
  | cons a rest ih =>
    intro s
    calc s ≤ max s a := le_max_left s a
    _ ≤ rest.foldl max (max s a) := ih (max s a)

theorem foldl_max_mem : ∀ (l : List Rat) (s : Rat), l.foldl max s = s ∨ l.foldl max s ∈ l := by
  intro l
  induction l with
  | nil => intro s; exact Or.inl rfl
  | cons a rest ih =>
    intro s
    rcases ih (max s a) with h | h
    · rcases max_cases s a with ⟨he, _⟩ | ⟨he, _⟩
      · left; rw [List.foldl_cons, h, he]
      · right; rw [List.foldl_cons, h, he]; simp
    · right
      rw [List.foldl_cons]
      exact List.mem_cons_of_mem a h

theorem firstIdxOf_isSome_of_mem {m : Rat} : ∀ {l : List Rat}, m ∈ l →
    (firstIdxOf l m).isSome := by
  intro l
  induction l with
  | nil => intro h; simp at h
  | cons s rest ih =>
    intro h
    by_cases hs : s = m
    · simp [firstIdxOf, hs]
    · rcases List.mem_cons.mp h with h' | h'
      · exact absurd h'.symm hs
      · simp only [firstIdxOf, hs, if_false, if_neg]
        have := ih h'
        cases hf : firstIdxOf rest m with
        | none => rw [hf] at this; simp at this
        | some j => simp [hf]

theorem bestScan_eq_specScan : ∀ (l : List Rat) (i0 : Nat) (b : Int × Rat),
    bestScan l i0 b = specScan l i0 b := by
  intro l
  induction l with
  | nil =>
    intro i0 b
    rw [bestScan, specScan]
    simp
  | cons s rest ih =>
    intro i0 b
    rw [bestScan, ih]
    by_cases hs : s > b.2
    · rw [if_pos hs]
      have hmax : max b.2 s = s := max_eq_right (le_of_lt hs)
      have hMs : s ≤ rest.foldl max s := le_foldl_max rest s
      by_cases hMgt : rest.foldl max s > s
      · have hMmem : rest.foldl max s ∈ rest := by
          rcases foldl_max_mem rest s with h | h
          · rw [h] at hMgt; exact absurd hMgt (lt_irrefl s)
          · exact h
        obtain ⟨j, hj⟩ := Option.isSome_iff_exists.mp (firstIdxOf_isSome_of_mem hMmem)
        have hsne : s ≠ rest.foldl max s := ne_of_lt hMgt
        rw [specScan, specScan]
        simp only [List.foldl_cons, hmax]
        rw [if_pos hMgt, if_pos (lt_trans hs hMgt), hj,
          show firstIdxOf (s :: rest) (rest.foldl max s) =
            (firstIdxOf rest (rest.foldl max s)).map (· + 1) from by
              rw [firstIdxOf, if_neg hsne], hj]
        simp only [Option.map_some']
        rw [show i0 + 1 + j = i0 + (j + 1) from by omega]
      · have hMeq : rest.foldl max s = s := le_antisymm (not_lt.mp hMgt) hMs
        rw [specScan, specScan]
        simp only [List.foldl_cons, hmax]
        rw [if_neg hMgt, if_pos (by rw [hMeq]; exact hs),
          show firstIdxOf (s :: rest) (rest.foldl max s) = some 0 from by
            rw [firstIdxOf, if_pos hMeq.symm]]
        simp [hMeq]
    · rw [if_neg hs]
      have hmax : max b.2 s = b.2 := max_eq_left (not_lt.mp hs)
      by_cases hMgt : rest.foldl max b.2 > b.2
      · have hMmem : rest.foldl max b.2 ∈ rest := by
          rcases foldl_max_mem rest b.2 with h | h
          · rw [h] at hMgt; exact absurd hMgt (lt_irrefl _)
          · exact h
        obtain ⟨j, hj⟩ := Option.isSome_iff_exists.mp (firstIdxOf_isSome_of_mem hMmem)
        have hsne : s ≠ rest.foldl max b.2 := by
          intro he
          rw [← he] at hMgt
          exact hs hMgt
        rw [specScan, specScan]
        simp only [List.foldl_cons, hmax]
        rw [if_pos hMgt, if_pos hMgt, hj,
          show firstIdxOf (s :: rest) (rest.foldl max b.2) =
            (firstIdxOf rest (rest.foldl max b.2)).map (· + 1) from by
              rw [firstIdxOf, if_neg hsne], hj]
        simp only [Option.map_some']
        rw [show i0 + 1 + j = i0 + (j + 1) from by omega]
      · rw [specScan, specScan]
        simp only [List.foldl_cons, hmax]
        rw [if_neg hMgt, if_neg hMgt]

theorem find?_of_firstIdxOf_map {α : Type} (f : α → Rat) (m : Rat) :
    ∀ (l : List α) (d : α) (j : Nat), firstIdxOf (l.map f) m = some j →
      l.find? (fun x => decide (f x = m)) = some (l.getD j d) ∧ j < l.length := by
  intro l
  induction l with
  | nil => intro d j h; simp [firstIdxOf] at h
  | cons x rest ih =>
    intro d j h
    by_cases hx : f x = m
    · rw [show firstIdxOf ((x :: rest).map f) m = some 0 from by
        simp only [List.map_cons]; rw [firstIdxOf, if_pos hx]] at h
      cases h
      constructor
      · rw [List.find?_cons_of_pos _ (by simp [hx])]
        rfl
      · simp
    · rw [show firstIdxOf ((x :: rest).map f) m = (firstIdxOf (rest.map f) m).map (· + 1)
        from by simp only [List.map_cons]; rw [firstIdxOf, if_neg hx]] at h
      cases hf : firstIdxOf (rest.map f) m with
      | none => rw [hf] at h; simp at h
      | some j' =>
        rw [hf] at h
        simp only [Option.map_some'] at h
        obtain ⟨h1, h2⟩ := ih d j' hf
        cases h
        constructor
        · rw [List.find?_cons_of_neg _ (by simp [hx])]
          exact h1
        · simpa using h2

theorem drop_getD (l : List Val) : ∀ (n : Nat) (r : Val) (rest : List Val),
    l.drop n = r :: rest → l.getD n Val.vNull = r := by
  induction l with
  | nil => intro n r rest h; simp at h
  | cons x xs ih =>
    intro n r rest h
    cases n with
    | zero => simp at h; simp [h.1]
    | succ n' =>
      simp only [List.drop_succ_cons] at h
      simpa using ih n' r rest h

theorem drop_succ_eq (l : List Val) : ∀ (n : Nat), l.drop (n + 1) = (l.drop n).tail := by
  induction l with
  | nil => intro n; simp
  | cons x xs ih =>
    intro n
    cases n with
    | zero => rfl
    | succ n' => exact ih n'

theorem candidatesOf_eq_map (refE0 : List Val) :
    ∀ (m : List Bool) (refE : List Val) (n : Nat),
      refE0.drop n = refE → refE.length = m.length →
      candidatesOf refE m = (unmatchedIndicesAux m n).map fun r => refE0.getD r Val.vNull := by
  intro m
  induction m with
  | nil =>
    intro refE n _ hlen
    cases refE with
    | nil => rfl
    | cons r rest => simp at hlen
  | cons b brest ih =>
    intro refE n hdrop hlen
    cases refE with
    | nil => simp at hlen
    | cons r rest =>
      have hdrop' : refE0.drop (n + 1) = rest := by
        rw [drop_succ_eq, hdrop]
        rfl
      have hlen' : rest.length = brest.length := by simpa using hlen
      have hget : refE0.getD n Val.vNull = r := drop_getD refE0 n r rest hdrop
      cases b with
      | true =>
        rw [show candidatesOf (r :: rest) (true :: brest) = candidatesOf rest brest
          from rfl,
          show unmatchedIndicesAux (true :: brest) n = unmatchedIndicesAux brest (n + 1)
          from rfl]
        exact ih rest (n + 1) hdrop' hlen'
      | false =>
        rw [show candidatesOf (r :: rest) (false :: brest) = r :: candidatesOf rest brest
          from rfl,
          show unmatchedIndicesAux (false :: brest) n = n :: unmatchedIndicesAux brest (n + 1)
          from rfl]
        simp only [List.map_cons, hget]
        rw [ih rest (n + 1) hdrop' hlen']

theorem unmatchedIndicesAux_shift : ∀ (m : List Bool) (n : Nat),
    unmatchedIndicesAux m (n + 1) = (unmatchedIndicesAux m n).map (· + 1) := by
  intro m
  induction m with
  | nil => intro n; rfl
  | cons b rest ih =>
    intro n
    cases b with
    | true =>
      rw [show unmatchedIndicesAux (true :: rest) (n + 1) = unmatchedIndicesAux rest (n + 2)
        from rfl,
        show unmatchedIndicesAux (true :: rest) n = unmatchedIndicesAux rest (n + 1) from rfl]
      exact ih (n + 1)
    | false =>
      rw [show unmatchedIndicesAux (false :: rest) (n + 1) =
          (n + 1) :: unmatchedIndicesAux rest (n + 2) from rfl,
        show unmatchedIndicesAux (false :: rest) n =
          n :: unmatchedIndicesAux rest (n + 1) from rfl]
      simp only [List.map_cons]
      rw [ih (n + 1)]

theorem filter_map_succ (l : List Nat) (p : Nat → Bool) :
    (l.map (· + 1)).filter p = (l.filter fun j => p (j + 1)).map (· + 1) := by
  induction l with
  | nil => rfl
  | cons x rest ih =>
    simp only [List.map_cons, List.filter_cons]
    by_cases hx : p (x + 1)
    · simp only [hx, if_pos, List.map_cons]
      rw [ih]
    · simp only [hx, if_neg, if_false, Bool.false_eq_true]
      exact ih

theorem unmatchedIndices_eq (m : List Bool) :
    unmatchedIndices m = (List.range m.length).filter fun j => !(m.getD j false) := by
  induction m with
  | nil => rfl
  | cons b rest ih =>
    have hshift : unmatchedIndicesAux rest 1 = (unmatchedIndices rest).map (· + 1) :=
      unmatchedIndicesAux_shift rest 0
    have hrange : List.range (b :: rest).length =
        0 :: (List.range rest.length).map (· + 1) := by
      rw [List.length_cons, List.range_succ_eq_map]
    rw [hrange]
    simp only [List.filter_cons]
    have hp0 : (!((b :: rest).getD 0 false)) = !b := rfl
    have hfm : ((List.range rest.length).map (· + 1)).filter
        (fun j => !((b :: rest).getD j false)) =
        ((List.range rest.length).filter fun j => !(rest.getD j false)).map (· + 1) := by
      rw [filter_map_succ]
      congr 1
    cases b with
    | true =>
      rw [show unmatchedIndices (true :: rest) = unmatchedIndicesAux rest 1 from rfl,
        hshift, ih]
      simp only [hp0]
      rw [show (!true) = false from rfl]
      simp only [Bool.false_eq_true, if_false, if_neg]
      rw [hfm]
    | false =>
      rw [show unmatchedIndices (false :: rest) = 0 :: unmatchedIndicesAux rest 1 from rfl,
        hshift, ih]
      simp only [hp0]
      rw [show (!false) = true from rfl]
      simp only [if_pos]
      rw [hfm]

theorem unmatched_eq_claimed (m : List Bool) (claimed : List Nat)
    (hflag : ∀ r, m.getD r false = true ↔ r ∈ claimed) :
    unmatchedIndices m = (List.range m.length).filter fun r => !claimed.contains r := by
  rw [unmatchedIndices_eq]
  apply List.filter_congr
  intro j _
  have hc : claimed.contains j = true ↔ j ∈ claimed := by
    rw [show claimed.contains j = claimed.elem j from rfl]
    exact List.elem_iff
  cases hg : m.getD j false with
  | true =>
    have hj : j ∈ claimed := (hflag j).mp hg
    rw [hc.mpr hj]
  | false =>
    have hj : j ∉ claimed := fun hmem => by
      rw [(hflag j).mpr hmem] at hg
      simp at hg
    have hcf : claimed.contains j = false := by
      cases hcj : claimed.contains j with
      | false => rfl
      | true => exact absurd (hc.mp hcj) hj
    rw [hcf]

/-- The similarity of a predicted entity against the reference entity of
index `r`, as the claim describes it. -/
def specScore (e : Val) (refE : List Val) (r : Nat) : Rat :=
  seqRatio (entityToString e) (entityToString (refE.getD r Val.vNull))

/-- The claim-side matching rule: if the highest ratio over unmatched
reference entities reaches the threshold, match to the lowest-index
unmatched reference entity attaining it (the `max 0` floor is harmless
for a positive threshold). -/
def specBestRef (t : Rat) (e : Val) (refE : List Val) (unmatched : List Nat) : Option Nat :=
  if (unmatched.map (specScore e refE)).foldl max 0 ≥ t then
    unmatched.find? fun r =>
      decide (specScore e refE r = (unmatched.map (specScore e refE)).foldl max 0)
  else none

theorem specBestRef_mem {t : Rat} {e : Val} {refE : List Val} {u : List Nat} {r : Nat}
    (h : specBestRef t e refE u = some r) : r ∈ u := by
  unfold specBestRef at h
  by_cases hcond : (u.map (specScore e refE)).foldl max 0 ≥ t
  · rw [if_pos hcond] at h
    exact List.mem_of_find?_eq_some h
  · rw [if_neg hcond] at h
    cases h

theorem findBestMatch_spec (t : Rat) (ht : 0 < t) (e : Val) (refE : List Val)
    (ui : List Nat) :
    (∀ r, specBestRef t e refE ui = some r →
      (findBestMatch e (ui.map fun x => refE.getD x Val.vNull) t).1 ≥ 0 ∧
      ui.getD (findBestMatch e (ui.map fun x => refE.getD x Val.vNull) t).1.toNat 0 = r) ∧
    (specBestRef t e refE ui = none →
      ¬ (findBestMatch e (ui.map fun x => refE.getD x Val.vNull) t).1 ≥ 0) := by
  have hscores : ((ui.map fun x => refE.getD x Val.vNull).map
      fun c => seqRatio (entityToString e) (entityToString c)) = ui.map (specScore e refE) := by
    rw [List.map_map]
    rfl
  have hfbm : findBestMatch e (ui.map fun x => refE.getD x Val.vNull) t =
      (if (specScan (ui.map (specScore e refE)) 0 (-1, 0)).2 ≥ t then
        specScan (ui.map (specScore e refE)) 0 (-1, 0) else (-1, 0)) := by
    rw [show findBestMatch e (ui.map fun x => refE.getD x Val.vNull) t =
      (if (bestScan ((ui.map fun x => refE.getD x Val.vNull).map
          fun c => seqRatio (entityToString e) (entityToString c)) 0 (-1, 0)).2 ≥ t then
        bestScan ((ui.map fun x => refE.getD x Val.vNull).map
          fun c => seqRatio (entityToString e) (entityToString c)) 0 (-1, 0)
      else (-1, 0)) from rfl]
    rw [hscores, bestScan_eq_specScan]
  by_cases hM : (ui.map (specScore e refE)).foldl max 0 > 0
  · have hMmem : (ui.map (specScore e refE)).foldl max 0 ∈ ui.map (specScore e refE) := by
      rcases foldl_max_mem (ui.map (specScore e refE)) 0 with h | h
      · rw [h] at hM; exact absurd hM (lt_irrefl 0)
      · exact h
    obtain ⟨j, hj⟩ := Option.isSome_iff_exists.mp (firstIdxOf_isSome_of_mem hMmem)
    have hscan : specScan (ui.map (specScore e refE)) 0 (-1, 0) =
        ((j : Int), (ui.map (specScore e refE)).foldl max 0) := by
      unfold specScan
      rw [if_pos hM, hj]
      simp
    obtain ⟨hfind, hjlt⟩ := find?_of_firstIdxOf_map (specScore e refE) _ ui 0 j hj
    by_cases ht2 : (ui.map (specScore e refE)).foldl max 0 ≥ t
    · have hres : findBestMatch e (ui.map fun x => refE.getD x Val.vNull) t =
          ((j : Int), (ui.map (specScore e refE)).foldl max 0) := by
        rw [hfbm, hscan, if_pos (by simpa using ht2)]
      have hspec : specBestRef t e refE ui = some (ui.getD j 0) := by
        unfold specBestRef
        rw [if_pos ht2, hfind]
      constructor
      · intro r hr
        rw [hspec] at hr
        cases hr
        rw [hres]
        exact ⟨by simp, by simp⟩
      · intro hnone
        rw [hspec] at hnone
        cases hnone
    · have hres : findBestMatch e (ui.map fun x => refE.getD x Val.vNull) t = (-1, 0) := by
        rw [hfbm, hscan, if_neg (by simpa using ht2)]
      have hspec : specBestRef t e refE ui = none := by
        unfold specBestRef
        rw [if_neg ht2]
      constructor
      · intro r hr
        rw [hspec] at hr
        cases hr
      · intro _
        rw [hres]
        simp
  · have hM0 : (ui.map (specScore e refE)).foldl max 0 = 0 :=
      le_antisymm (not_lt.mp hM) (le_foldl_max _ 0)
    have hscan : specScan (ui.map (specScore e refE)) 0 (-1, 0) = (-1, 0) := by
      unfold specScan
      rw [if_neg (by simpa using hM)]
    have hres : findBestMatch e (ui.map fun x => refE.getD x Val.vNull) t = (-1, 0) := by
      rw [hfbm, hscan]
      rw [if_neg (by simpa using not_le.mpr ht)]
    have hspec : specBestRef t e refE ui = none := by
      unfold specBestRef
      rw [if_neg (by rw [hM0]; exact not_le.mpr ht)]
    constructor
    · intro r hr
      rw [hspec] at hr
      cases hr
    · intro _
      rw [hres]
      simp

theorem flags_update (m : List Bool) (claimedPairs : List (Nat × Nat)) (r pIdx : Nat)
    (hflag : ∀ rr, m.getD rr false = true ↔ rr ∈ claimedPairs.map Prod.snd)
    (hr : r < m.length) :
    ∀ rr, (listSet m r true).getD rr false = true ↔
      rr ∈ (claimedPairs ++ [(pIdx, r)]).map Prod.snd := by
  intro rr
  by_cases hrr : rr = r
  · subst hrr
    rw [listSet_getD_eq _ _ _ hr]
    simp
  · rw [listSet_getD_ne _ _ _ _ (fun he => hrr he.symm)]
    simp only [List.map_append, List.mem_append, List.map_cons, List.map_nil,
      List.mem_singleton]
    rw [hflag rr]
    simp [hrr]

theorem greedyStep_some (t : Rat) (ht : 0 < t) (refE : List Val) (st : MatchState)
    (pIdx : Nat) (e : Val) (hlen : st.refMatched.length = refE.length) (r : Nat)
    (hbr : specBestRef t e refE (unmatchedIndices st.refMatched) = some r) :
    greedyStep t refE st (pIdx, e) =
      ⟨listSet st.refMatched r true, listSet st.predMatched pIdx true,
        st.pairs ++ [(pIdx, r)]⟩ := by
  have hbridge : candidatesOf refE st.refMatched =
      (unmatchedIndices st.refMatched).map fun x => refE.getD x Val.vNull :=
    candidatesOf_eq_map refE st.refMatched refE 0 (List.drop_zero refE) hlen.symm
  obtain ⟨hsome, _⟩ := findBestMatch_spec t ht e refE (unmatchedIndices st.refMatched)
  obtain ⟨hge, hgd⟩ := hsome r hbr
  show (if (findBestMatch e (candidatesOf refE st.refMatched) t).1 ≥ 0 then _ else st) = _
  rw [hbridge, if_pos hge, hgd]

theorem greedyStep_none (t : Rat) (ht : 0 < t) (refE : List Val) (st : MatchState)
    (pIdx : Nat) (e : Val) (hlen : st.refMatched.length = refE.length)
    (hbr : specBestRef t e refE (unmatchedIndices st.refMatched) = none) :
    greedyStep t refE st (pIdx, e) = st := by
  have hbridge : candidatesOf refE st.refMatched =
      (unmatchedIndices st.refMatched).map fun x => refE.getD x Val.vNull :=
    candidatesOf_eq_map refE st.refMatched refE 0 (List.drop_zero refE) hlen.symm
  obtain ⟨_, hnone⟩ := findBestMatch_spec t ht e refE (unmatchedIndices st.refMatched)
  show (if (findBestMatch e (candidatesOf refE st.refMatched) t).1 ≥ 0 then _ else st) = _
  rw [hbridge, if_neg (hnone hbr)]

/-- The claim-side greedy loop: predicted entities in order, each matched
by `specBestRef` against the not-yet-claimed reference indices. -/
def specGreedyLoop (t : Rat) (refE : List Val) :
    List Val → Nat → List Nat → List (Nat × Nat)
  | [], _, _ => []
  | e :: rest, pIdx, claimed =>
    match specBestRef t e refE
        ((List.range refE.length).filter fun x => !claimed.contains x) with
    | some r => (pIdx, r) :: specGreedyLoop t refE rest (pIdx + 1) (claimed ++ [r])
    | none => specGreedyLoop t refE rest (pIdx + 1) claimed

def specGreedy (t : Rat) (predE refE : List Val) : List (Nat × Nat) :=
  specGreedyLoop t refE predE 0 []

theorem greedyLoop_eq_spec (t : Rat) (ht : 0 < t) (refE : List Val) :
    ∀ (rem : List Val) (pIdx : Nat) (st : MatchState),
      st.refMatched.length = refE.length →
      (∀ r, st.refMatched.getD r false = true ↔ r ∈ st.pairs.map Prod.snd) →
      (greedyLoop t refE rem pIdx st).pairs =
        st.pairs ++ specGreedyLoop t refE rem pIdx (st.pairs.map Prod.snd) := by
  intro rem
  induction rem with
  | nil => intro pIdx st _ _; simp [greedyLoop, specGreedyLoop]
  | cons e rest ih =>
    intro pIdx st hlen hflag
    have hui : unmatchedIndices st.refMatched =
        (List.range refE.length).filter fun x => !(st.pairs.map Prod.snd).contains x := by
      rw [unmatched_eq_claimed st.refMatched (st.pairs.map Prod.snd) hflag, hlen]
    rw [greedyLoop]
    cases hbr : specBestRef t e refE (unmatchedIndices st.refMatched) with
    | some r =>
      have hstep := greedyStep_some t ht refE st pIdx e hlen r hbr
      have hbr' : specBestRef t e refE
          ((List.range refE.length).filter fun x => !(st.pairs.map Prod.snd).contains x) =
          some r := by rw [← hui]; exact hbr
      have hrmem : r ∈ unmatchedIndices st.refMatched := specBestRef_mem hbr
      obtain ⟨j, hjlt, hjr, hjg⟩ := (mem_unmatchedIndicesAux _ 0 r).mp hrmem
      have hrlt : r < st.refMatched.length := by omega
      rw [hstep]
      have hIH := ih (pIdx + 1)
        ⟨listSet st.refMatched r true, listSet st.predMatched pIdx true,
          st.pairs ++ [(pIdx, r)]⟩
        (by simpa [listSet_length] using hlen)
        (flags_update st.refMatched st.pairs r pIdx hflag hrlt)
      rw [hIH]
      rw [show specGreedyLoop t refE (e :: rest) pIdx (st.pairs.map Prod.snd) =
          (pIdx, r) :: specGreedyLoop t refE rest (pIdx + 1)
            (st.pairs.map Prod.snd ++ [r]) from by
        rw [specGreedyLoop, hbr']]
      simp only [List.map_append, List.map_cons, List.map_nil]
      rw [List.append_assoc]
      rfl
    | none =>
      have hstep := greedyStep_none t ht refE st pIdx e hlen hbr
      have hbr' : specBestRef t e refE
          ((List.range refE.length).filter fun x => !(st.pairs.map Prod.snd).contains x) =
          none := by rw [← hui]; exact hbr
      rw [hstep]
      rw [show specGreedyLoop t refE (e :: rest) pIdx (st.pairs.map Prod.snd) =
          specGreedyLoop t refE rest (pIdx + 1) (st.pairs.map Prod.snd) from by
        rw [specGreedyLoop, hbr']]
      exact ih (pIdx + 1) st hlen hflag

/-- C3. With a positive threshold (the default is 0.7), the match list
built inside `entity_array_f1` is exactly the claim's greedy discipline:
predicted entities in list order, each matched to the unmatched reference
entity of highest `SequenceMatcher` ratio if and only if that best ratio
reaches the threshold, ties broken by lowest original reference index. -/
theorem entity_match_greedy (t : Rat) (ht : 0 < t) (predE refE : List Val) :
    (greedyMatch t predE refE).pairs = specGreedy t predE refE := by
  unfold greedyMatch specGreedy
  rw [greedyLoop_eq_spec t ht refE predE 0
    ⟨refE.map fun _ => false, predE.map fun _ => false, []⟩
    (by simp)
    (by
      intro r
      rw [getD_all_false _ (by simp)]
      simp)]
  simp

section RatEvalE

attribute [local semireducible] Rat.mul Rat.add Rat.inv Rat.sub

set_option maxRecDepth 8000

/-- C3 witness: a concrete run where the predicted entity skips the
first (dissimilar) reference entity and claims the second. -/
theorem entity_match_greedy_witness :
    (greedyMatch (7 / 10) [Val.vDict [("name", Val.vStr "fever")]]
        [Val.vDict [("name", Val.vStr "cough")],
         Val.vDict [("name", Val.vStr "fevers")]]).pairs =
      specGreedy (7 / 10) [Val.vDict [("name", Val.vStr "fever")]]
        [Val.vDict [("name", Val.vStr "cough")],
         Val.vDict [("name", Val.vStr "fevers")]] ∧
    (greedyMatch (7 / 10) [Val.vDict [("name", Val.vStr "fever")]]
        [Val.vDict [("name", Val.vStr "cough")],
         Val.vDict [("name", Val.vStr "fevers")]]).pairs = [(0, 1)] := by
  constructor
  · exact entity_match_greedy (7 / 10) (by norm_num) _ _
  · decide

end RatEvalE

/-! ## Run-summary parser (`parse_run_summary` in `metrics.py`)

`re.search` with the two fixed patterns
`TOTAL\s+(\d+)/(\d+)\s+\d+\s+(\d+)\s+([\d.]+)` and
`AVERAGE\s+([\d.]+)\s+([\d.]+)\s+([\d.]+)` is embedded as a leftmost
scan with a maximal-munch matcher at each position; for these patterns
maximal munch is equivalent to the backtracking semantics, because each
`+`-repetition is followed by a character its class cannot match.
A file is modelled by `Option String` (absent or its text);
`float()`'s `ValueError` on a malformed group is the `Except.error`
case. -/

/-- Match one-or-more characters satisfying `p` (`\s+`, `\d+`, `[\d.]+`),
returning the token and the rest. -/
def munch1 (p : Char → Bool) (cs : List Char) : Option (List Char × List Char) :=
  if (cs.takeWhile p).isEmpty then none else some (cs.takeWhile p, cs.dropWhile p)

/-- Match a literal, returning the rest. -/
def matchLit : List Char → List Char → Option (List Char)
  | [], cs => some cs
  | _ :: _, [] => none
  | l :: ls, c :: cs => if c = l then matchLit ls cs else none

def isDigitDot (c : Char) : Bool := isDigitChar c || c = '.'

/-- The pattern `TOTAL\s+(\d+)/(\d+)\s+\d+\s+(\d+)\s+([\d.]+)` anchored
at the head; yields the first two groups (the only ones the code uses). -/
def tryTotal (cs : List Char) : Option (Nat × Nat) :=
  (matchLit "TOTAL".data cs).bind fun cs =>
  (munch1 pyIsSpace cs).bind fun s1 =>
  (munch1 isDigitChar s1.2).bind fun d1 =>
  (matchLit ['/'] d1.2).bind fun cs =>
  (munch1 isDigitChar cs).bind fun d2 =>
  (munch1 pyIsSpace d2.2).bind fun s2 =>
  (munch1 isDigitChar s2.2).bind fun d3 =>
  (munch1 pyIsSpace d3.2).bind fun s3 =>
  (munch1 isDigitChar s3.2).bind fun d4 =>
  (munch1 pyIsSpace d4.2).bind fun s4 =>
  (munch1 isDigitDot s4.2).map fun _ =>
  (parseNatDigits d1.1, parseNatDigits d2.1)

/-- The pattern `AVERAGE\s+([\d.]+)\s+([\d.]+)\s+([\d.]+)` anchored at
the head; yields the three groups. -/
def tryAvg (cs : List Char) : Option (List Char × List Char × List Char) :=
  (matchLit "AVERAGE".data cs).bind fun cs =>
  (munch1 pyIsSpace cs).bind fun s1 =>
  (munch1 isDigitDot s1.2).bind fun g1 =>
  (munch1 pyIsSpace g1.2).bind fun s2 =>
  (munch1 isDigitDot s2.2).bind fun g2 =>
  (munch1 pyIsSpace g2.2).bind fun s3 =>
  (munch1 isDigitDot s3.2).map fun g3 =>
  (g1.1, g2.1, g3.1)

/-- `re.search`: try the anchored matcher at each position, leftmost
match wins. -/
def searchWith {α : Type} (try' : List Char → Option α) : List Char → Option α
  | [] => try' []
  | c :: rest =>
    match try' (c :: rest) with
    | some g => some g
    | none => searchWith try' rest

def searchTotal : List Char → Option (Nat × Nat) := searchWith tryTotal

def searchAvg : List Char → Option (List Char × List Char × List Char) := searchWith tryAvg

/-- Python `float()` on a `[\d.]+` token: valid iff it has at most one
dot and at least one digit. -/
def parseFloatQ (cs : List Char) : Option Rat :=
  let dots := cs.countP (· = '.')
  if dots = 0 then
    if cs.isEmpty then none else some ((parseNatDigits cs : Nat) : Rat)
  else if dots = 1 then
    let intPart := cs.takeWhile (· ≠ '.')
    let frac := (cs.dropWhile (· ≠ '.')).tail
    if intPart.isEmpty ∧ frac.isEmpty then none
    else some (((parseNatDigits intPart : Nat) : Rat) +
      ((parseNatDigits frac : Nat) : Rat) / ((10 ^ frac.length : Nat) : Rat))
  else none

structure RunSummary where
  success_rate : Rat
  avg_retries : Rat
  avg_time : Rat
  total_samples : Nat
  failed_samples : Int
deriving DecidableEq

def zeroRunSummary : RunSummary := ⟨0, 0, 0, 0, 0⟩

/-- `parse_run_summary` from `metrics.py`: all-zero on a missing file or
missing patterns; otherwise the three `AVERAGE` groups go through
`float()` (whose `ValueError` is the error case) and the summary is
assembled from the `TOTAL` groups. -/
def parseRunSummary (content? : Option String) : Except String RunSummary :=
  match content? with
  | none => .ok zeroRunSummary
  | some content =>
    match searchTotal content.data, searchAvg content.data with
    | some st, some gs =>
      match parseFloatQ gs.1 with
      | none => .error "ValueError"
      | some _ =>
        match parseFloatQ gs.2.1 with
        | none => .error "ValueError"
        | some avgRetries =>
          match parseFloatQ gs.2.2 with
          | none => .error "ValueError"
          | some avgTime =>
            .ok ⟨if st.2 > 0 then (st.1 : Rat) / (st.2 : Rat) else 0,
              avgRetries, avgTime, st.2, (st.2 : Int) - (st.1 : Int)⟩
    | _, _ => .ok zeroRunSummary

/-! ## Run-summary writer (`_write_run_summary` in `pipeline/run.py`) -/

/-- Round-half-even to an integer, as CPython's float formatting does at
the two-decimal scale (elapsed times are modelled as rationals). -/
def roundHalfEven (q : Rat) : Int :=
  if q + 1 / 2 = ((Rat.floor (q + 1 / 2) : Int) : Rat) ∧ Rat.floor (q + 1 / 2) % 2 = 1 then
    Rat.floor (q + 1 / 2) - 1
  else Rat.floor (q + 1 / 2)

/-- Python `f"{x:.2f}"` for a non-negative rational. -/
def fmt2 (x : Rat) : String :=
  natStr ((roundHalfEven (x * 100)).toNat / 100) ++ "." ++
  (⟨List.replicate (2 - (natStr ((roundHalfEven (x * 100)).toNat % 100)).length) '0'⟩ ++
    natStr ((roundHalfEven (x * 100)).toNat % 100))

def spacesStr (n : Nat) : String := ⟨List.replicate n ' '⟩

/-- Python `f"{s:<w}"`. -/
def padRightS (s : String) (w : Nat) : String := s ++ spacesStr (w - s.length)

/-- Python `f"{n:05d}"` for a natural number. -/
def padLeft0 (s : String) (w : Nat) : String :=
  (⟨List.replicate (w - s.length) '0'⟩ : String) ++ s

/-- The fields of a `ParseResult` used by `_write_run_summary`. -/
structure ParseResultW where
  sample_idx : Nat
  attempts : Nat
  success : Bool
  elapsed_seconds : Rat

def statusStr (b : Bool) : String := if b then "SUCCESS" else "FAILED"

/-- One per-sample row of the run-summary table. -/
def rowLine (r : ParseResultW) : String :=
  padLeft0 (natStr r.sample_idx) 5 ++ "      " ++
  padRightS (statusStr r.success) 10 ++ " " ++
  padRightS (natStr r.attempts) 10 ++ " " ++
  padRightS (natStr (r.attempts - 1)) 10 ++ " " ++
  padRightS (fmt2 r.elapsed_seconds) 12 ++ "\n"

def concatStrs : List String → String
  | [] => ""
  | s :: rest => s ++ concatStrs rest

def eqLineS : String := ⟨List.replicate 80 '='⟩

def dashLineS : String := ⟨List.replicate 80 '-'⟩

/-- `_write_run_summary(results)` from `pipeline/run.py`: the full text
written to `run_summary.txt`. -/
def writeRunSummary (results : List ParseResultW) : String :=
  let succeeded := results.countP fun r => r.success
  let totalAttempts := (results.map fun r => r.attempts).sum
  let totalRetries := totalAttempts - results.length
  let totalElapsed := (results.map fun r => r.elapsed_seconds).sum
  let avgTime : Rat := if results.isEmpty then 0 else totalElapsed / (results.length : Rat)
  eqLineS ++ "\n" ++
  "RUN SUMMARY - PER SAMPLE DETAILS\n" ++
  eqLineS ++ "\n" ++
  padRightS "Sample" 10 ++ " " ++ padRightS "Status" 10 ++ " " ++
    padRightS "Attempts" 10 ++ " " ++ padRightS "Retries" 10 ++ " " ++
    padRightS "Time (s)" 12 ++ "\n" ++
  dashLineS ++ "\n" ++
  concatStrs (results.map rowLine) ++
  dashLineS ++ "\n" ++
  padRightS "TOTAL" 10 ++ " " ++ natStr succeeded ++ "/" ++
    padRightS (natStr results.length) 9 ++ " " ++
    padRightS (natStr totalAttempts) 10 ++ " " ++
    padRightS (natStr totalRetries) 10 ++ " " ++
    padRightS (fmt2 totalElapsed) 12 ++ "\n" ++
  padRightS "AVERAGE" 10 ++ " " ++ spacesStr 10 ++ " " ++
    padRightS (fmt2 ((totalAttempts : Rat) / (results.length : Rat))) 10 ++ " " ++
    padRightS (fmt2 ((totalRetries : Rat) / (results.length : Rat))) 10 ++ " " ++
    padRightS (fmt2 avgTime) 12 ++ "\n" ++
  eqLineS ++ "\n"

/-- C6 counterexample. A text in which both patterns match but the first
`AVERAGE` group is `"."` makes `float(".")` raise `ValueError`:
`parse_run_summary` is not exception-free. -/
theorem parse_run_summary_counterexample :
    searchTotal ("TOTAL 1/2 3 4 5\nAVERAGE . 1.5 2.0" : String).data = some (1, 2) ∧
    (searchAvg ("TOTAL 1/2 3 4 5\nAVERAGE . 1.5 2.0" : String).data).isSome = true ∧
    parseRunSummary (some "TOTAL 1/2 3 4 5\nAVERAGE . 1.5 2.0") = .error "ValueError" :=
  ⟨rfl, rfl, rfl⟩

/-- C6 (amended). `parse_run_summary` returns the all-zero summary when
the file is absent or either pattern is missing; when both patterns are
present and the matched `AVERAGE` groups are well-formed decimals it
returns `succeeded/total` (0 when `total` = 0), the second and third
`AVERAGE` numbers, `total` and `total − succeeded`; it errors only when a
matched `AVERAGE` group is not a valid float. -/
theorem parse_run_summary_spec :
    (parseRunSummary none = .ok zeroRunSummary) ∧
    (∀ s : String, searchTotal s.data = none ∨ searchAvg s.data = none →
      parseRunSummary (some s) = .ok zeroRunSummary) ∧
    (∀ (s : String) (succ tot : Nat) (g1 g2 g3 : List Char) (v1 v2 v3 : Rat),
      searchTotal s.data = some (succ, tot) →
      searchAvg s.data = some (g1, g2, g3) →
      parseFloatQ g1 = some v1 → parseFloatQ g2 = some v2 → parseFloatQ g3 = some v3 →
      parseRunSummary (some s) = .ok
        ⟨if tot > 0 then (succ : Rat) / (tot : Rat) else 0, v2, v3, tot,
          (tot : Int) - (succ : Int)⟩) := by
  refine ⟨rfl, ?_, ?_⟩
  · intro s h
    rcases h with h | h
    · cases hA : searchAvg s.data <;> simp [parseRunSummary, h, hA]
    · cases hT : searchTotal s.data <;> simp [parseRunSummary, h, hT]
  · intro s succ tot g1 g2 g3 v1 v2 v3 hT hA h1 h2 h3
    simp [parseRunSummary, hT, hA, h1, h2, h3]

section RatEvalF

attribute [local semireducible] Rat.mul Rat.add Rat.inv Rat.sub

/-- C6 witness: a patternless text gives the all-zero summary; the
claim's example log parses to (0.8, 1.5, 15.0, 10, 2). -/
theorem parse_run_summary_witness :
    parseRunSummary (some "no patterns here") = .ok zeroRunSummary ∧
    parseRunSummary
        (some ("TOTAL    8/10      25         17         120.50\n" ++
          "AVERAGE  2.50      1.50       15.00")) =
      .ok ⟨4 / 5, 3 / 2, 15, 10, 2⟩ := by
  constructor
  · exact parse_run_summary_spec.2.1 "no patterns here" (Or.inl rfl)
  · have h := parse_run_summary_spec.2.2
      ("TOTAL    8/10      25         17         120.50\n" ++
        "AVERAGE  2.50      1.50       15.00") 8 10
      "2.50".data "1.50".data "15.00".data (5 / 2) (3 / 2) 15
      (by decide) (by decide) (by decide) (by decide) (by decide)
    rw [h, show (⟨if 10 > 0 then ((8 : Nat) : Rat) / ((10 : Nat) : Rat) else 0,
      3 / 2, 15, 10, ((10 : Nat) : Int) - ((8 : Nat) : Int)⟩ : RunSummary) =
      ⟨4 / 5, 3 / 2, 15, 10, 2⟩ from by decide]

end RatEvalF

/-! ## Digit / formatting lemmas for the writer-parser round trip (C7) -/

theorem digitChar_facts : ∀ k, k < 10 →
    (digitChar k).toNat = 48 + k ∧ isDigitChar (digitChar k) = true ∧
    isDigitDot (digitChar k) = true ∧ pyIsSpace (digitChar k) = false ∧
    digitChar k ≠ '.' ∧ digitChar k ≠ 'O' ∧ digitChar k ≠ 'V' ∧ digitChar k ≠ '/' := by
  decide

theorem natDigits_shape : ∀ (fuel n : Nat), n < fuel →
    ∀ c ∈ natDigits fuel n, ∃ k, k < 10 ∧ c = digitChar k := by
  intro fuel
  induction fuel with
  | zero => intro n h; omega
  | succ f ih =>
    intro n hn c hc
    rw [natDigits] at hc
    by_cases h10 : n < 10
    · rw [if_pos h10] at hc
      simp at hc
      exact ⟨n, h10, hc⟩
    · rw [if_neg h10] at hc
      rcases List.mem_append.mp hc with h | h
      · exact ih (n / 10) (by omega) c h
      · simp at h
        exact ⟨n % 10, by omega, h⟩

theorem natDigits_ne_nil : ∀ (fuel n : Nat), 0 < fuel → natDigits fuel n ≠ [] := by
  intro fuel n h
  cases fuel with
  | zero => omega
  | succ f =>
    rw [natDigits]
    by_cases h10 : n < 10
    · rw [if_pos h10]; simp
    · rw [if_neg h10]; simp

theorem parseNat_natDigits : ∀ (fuel n : Nat), n < fuel →
    parseNatDigits (natDigits fuel n) = n := by
  intro fuel
  induction fuel with
  | zero => intro n h; omega
  | succ f ih =>
    intro n hn
    rw [natDigits]
    by_cases h10 : n < 10
    · rw [if_pos h10]
      show 10 * 0 + ((digitChar n).toNat - 48) = n
      rw [(digitChar_facts n h10).1]
      omega
    · rw [if_neg h10]
      unfold parseNatDigits
      rw [List.foldl_append]
      show 10 * parseNatDigits (natDigits f (n / 10)) + ((digitChar (n % 10)).toNat - 48) = n
      rw [ih (n / 10) (by omega), (digitChar_facts (n % 10) (by omega)).1]
      omega

theorem natStr_shape (n : Nat) : ∀ c ∈ (natStr n).data, ∃ k, k < 10 ∧ c = digitChar k :=
  natDigits_shape (n + 1) n (by omega)

theorem natStr_ne_nil (n : Nat) : (natStr n).data ≠ [] :=
  natDigits_ne_nil (n + 1) n (by omega)

theorem parseNat_natStr (n : Nat) : parseNatDigits (natStr n).data = n :=
  parseNat_natDigits (n + 1) n (by omega)

theorem natDigits_single (k : Nat) (hk : k < 10) :
    ∀ fuel, 0 < fuel → natDigits fuel k = [digitChar k] := by
  intro fuel h
  cases fuel with
  | zero => omega
  | succ f => rw [natDigits, if_pos hk]

theorem natStr_len_le_two (b : Nat) (hb : b < 100) : (natStr b).data.length ≤ 2 := by
  show (natDigits (b + 1) b).length ≤ 2
  rw [natDigits]
  by_cases h10 : b < 10
  · rw [if_pos h10]; simp
  · rw [if_neg h10, natDigits_single (b / 10) (by omega) b (by omega)]
    simp

theorem parseNat_replicate_zero : ∀ (k : Nat) (ds : List Char),
    parseNatDigits (List.replicate k '0' ++ ds) = parseNatDigits ds := by
  intro k
  induction k with
  | zero => intro ds; simp
  | succ j ih =>
    intro ds
    rw [List.replicate_succ]
    show parseNatDigits ('0' :: (List.replicate j '0' ++ ds)) = parseNatDigits ds
    unfold parseNatDigits at *
    rw [List.foldl_cons]
    show (List.replicate j '0' ++ ds).foldl _ (10 * 0 + ('0'.toNat - 48)) = _
    rw [show 10 * 0 + ('0'.toNat - 48) = 0 from by decide]
    exact ih ds

theorem takeWhile_dropWhile_append {p : Char → Bool} :
    ∀ (a b : List Char), (∀ c ∈ a, p c = true) → (∀ c ∈ b.take 1, p c = false) →
      (a ++ b).takeWhile p = a ∧ (a ++ b).dropWhile p = b := by
  intro a
  induction a with
  | nil =>
    intro b _ hb
    cases b with
    | nil => exact ⟨rfl, rfl⟩
    | cons y ys =>
      have hy : p y = false := hb y (by simp)
      simp [List.takeWhile_cons, List.dropWhile_cons, hy]
  | cons x rest ih =>
    intro b ha hb
    have hx : p x = true := ha x (by simp)
    obtain ⟨h1, h2⟩ := ih b (fun c hc => ha c (by simp [hc])) hb
    constructor
    · rw [List.cons_append, List.takeWhile_cons, hx]
      simp [h1]
    · rw [List.cons_append, List.dropWhile_cons, hx]
      simp [h2]

theorem munch1_eval {p : Char → Bool} (a b : List Char) (ha : ∀ c ∈ a, p c = true)
    (hne : a ≠ []) (hb : ∀ c ∈ b.take 1, p c = false) :
    munch1 p (a ++ b) = some (a, b) := by
  obtain ⟨h1, h2⟩ := takeWhile_dropWhile_append a b ha hb
  unfold munch1
  rw [h1, h2]
  have : a.isEmpty = false := by
    cases a with
    | nil => exact absurd rfl hne
    | cons x rest => rfl
  rw [this]
  rfl

theorem matchLit_eval : ∀ (lit rest : List Char), matchLit lit (lit ++ rest) = some rest := by
  intro lit
  induction lit with
  | nil => intro rest; rfl
  | cons l ls ih =>
    intro rest
    rw [List.cons_append]
    show (if l = l then matchLit ls (ls ++ rest) else none) = some rest
    rw [if_pos rfl]
    exact ih rest

theorem fmt2_data (x : Rat) :
    (fmt2 x).data = (natStr ((roundHalfEven (x * 100)).toNat / 100)).data ++
      '.' :: (List.replicate
          (2 - (natStr ((roundHalfEven (x * 100)).toNat % 100)).length) '0' ++
        (natStr ((roundHalfEven (x * 100)).toNat % 100)).data) := by
  unfold fmt2
  simp

theorem natStr_not_dot (n : Nat) : ∀ c ∈ (natStr n).data, (c = '.') = false := by
  intro c hc
  obtain ⟨k, hk, rfl⟩ := natStr_shape n c hc
  simp [(digitChar_facts k hk).2.2.2.2.1]

theorem take_one_append {a b : List Char} (ha : a ≠ []) : (a ++ b).take 1 = a.take 1 := by
  cases a with
  | nil => exact absurd rfl ha
  | cons x rest => simp

theorem fmt2_head (x : Rat) :
    ∀ c ∈ (fmt2 x).data.take 1, isDigitChar c = true ∧ pyIsSpace c = false ∧
      isDigitDot c = true := by
  intro c hc
  rw [fmt2_data, take_one_append (natStr_ne_nil _)] at hc
  have hmem : c ∈ (natStr ((roundHalfEven (x * 100)).toNat / 100)).data :=
    List.mem_of_mem_take hc
  obtain ⟨k, hk, rfl⟩ := natStr_shape _ c hmem
  exact ⟨(digitChar_facts k hk).2.1, (digitChar_facts k hk).2.2.2.1,
    (digitChar_facts k hk).2.2.1⟩

theorem fmt2_shape (x : Rat) : ∀ c ∈ (fmt2 x).data, isDigitDot c = true := by
  intro c hc
  rw [fmt2_data] at hc
  rcases List.mem_append.mp hc with h | h
  · obtain ⟨k, hk, rfl⟩ := natStr_shape _ c h
    exact (digitChar_facts k hk).2.2.1
  · rcases List.mem_cons.mp h with h | h
    · subst h; decide
    · rcases List.mem_append.mp h with h | h
      · have : c = '0' := List.eq_of_mem_replicate h
        subst this; decide
      · obtain ⟨k, hk, rfl⟩ := natStr_shape _ c h
        exact (digitChar_facts k hk).2.2.1

theorem fmt2_ne_nil (x : Rat) : (fmt2 x).data ≠ [] := by
  rw [fmt2_data]
  intro h
  exact natStr_ne_nil _ (List.append_eq_nil.mp h).1

/-- `float()` recovers the rounded value `n/100` from the two-decimal
rendering. -/
theorem parseFloatQ_fmt2 (x : Rat) :
    parseFloatQ (fmt2 x).data =
      some (((roundHalfEven (x * 100)).toNat : Rat) / 100) := by
  set n := (roundHalfEven (x * 100)).toNat with hn
  set a := n / 100 with ha
  set b := n % 100 with hb2
  set pad := 2 - (natStr b).length with hpad
  have hdata : (fmt2 x).data =
      (natStr a).data ++ '.' :: (List.replicate pad '0' ++ (natStr b).data) := fmt2_data x
  have hdots : ((fmt2 x).data.countP (· = '.')) = 1 := by
    rw [hdata, List.countP_append, List.countP_cons, List.countP_append]
    rw [List.countP_eq_zero.mpr (fun c hc => by simpa using natStr_not_dot a c hc),
      List.countP_eq_zero.mpr (fun c hc => by
        have h0 : c = '0' := List.eq_of_mem_replicate hc
        subst h0; decide),
      List.countP_eq_zero.mpr (fun c hc => by simpa using natStr_not_dot b c hc)]
    decide
  have hne : ∀ c ∈ (natStr a).data, (decide (c ≠ '.')) = true := by
    intro c hc
    simpa using natStr_not_dot a c hc
  have htk := takeWhile_dropWhile_append (p := fun c => decide (c ≠ '.'))
    (natStr a).data ('.' :: (List.replicate pad '0' ++ (natStr b).data)) hne
    (by intro c hc; simp at hc; simp [hc])
  unfold parseFloatQ
  rw [hdata] at hdots ⊢
  rw [hdots]
  simp only [if_neg (by omega : ¬(1 = 0)), if_pos rfl, if_pos trivial]
  rw [htk.1, htk.2]
  simp only [List.tail_cons]
  have hintne : (natStr a).data.isEmpty = false := by
    cases h : (natStr a).data with
    | nil => exact absurd h (natStr_ne_nil a)
    | cons y ys => rfl
  rw [if_neg (by rw [hintne]; simp)]
  have hfrac : parseNatDigits (List.replicate pad '0' ++ (natStr b).data) = b := by
    rw [parseNat_replicate_zero, parseNat_natStr]
  have hflen : (List.replicate pad '0' ++ (natStr b).data).length = 2 := by
    have hble : (natStr b).data.length ≤ 2 := natStr_len_le_two b (by omega)
    simp only [List.length_append, List.length_replicate]
    have : (natStr b).length = (natStr b).data.length := rfl
    omega
  rw [hfrac, hflen, parseNat_natStr]
  congr 1
  have h100 : ((10 ^ 2 : Nat) : Rat) = 100 := by norm_num
  rw [h100]
  have hdm : a * 100 + b = n := by
    rw [ha, hb2]
    omega
  have hcast : ((a : Rat) * 100 + (b : Rat)) = (n : Rat) := by
    exact_mod_cast congrArg (Nat.cast : Nat → Rat) hdm
  field_simp
  linarith [hcast]

/-! ## Leftmost-search lemmas for the run-summary patterns (C7) -/

theorem obind_some {A B : Type} (a : A) (f : A → Option B) : (some a).bind f = f a := rfl

theorem omap_some {A B : Type} (a : A) (f : A → B) : (some a).map f = some (f a) := rfl

theorem matchLit_cons (l : Char) (ls : List Char) (c : Char) (cs : List Char) :
    matchLit (l :: ls) (c :: cs) = if c = l then matchLit ls cs else none := rfl

theorem matchLit_single (l : Char) (rest : List Char) :
    matchLit [l] (l :: rest) = some rest := by
  rw [matchLit_cons, if_pos rfl]
  rfl

theorem searchWith_pos {A : Type} (try1 : List Char → Option A) (t : List Char) (g : A)
    (h : try1 t = some g) : searchWith try1 t = some g := by
  cases t with
  | nil => exact h
  | cons c rest =>
    unfold searchWith
    rw [h]

theorem searchWith_cons_none {A : Type} (try1 : List Char → Option A) (c : Char)
    (rest : List Char) (h : try1 (c :: rest) = none) :
    searchWith try1 (c :: rest) = searchWith try1 rest := by
  cases rest with
  | nil =>
    unfold searchWith
    rw [h]
    rfl
  | cons d ds =>
    unfold searchWith
    rw [h]
    rfl

theorem searchWith_skip {A : Type} (try1 : List Char → Option A) (y : Char)
    (hnone : ∀ (c1 c2 : Char) (rest : List Char), c2 ≠ y → try1 (c1 :: c2 :: rest) = none) :
    ∀ (p t : List Char), (∀ c ∈ p, c ≠ y) → (∀ c ∈ t.take 1, c ≠ y) → t ≠ [] →
      searchWith try1 (p ++ t) = searchWith try1 t := by
  intro p
  induction p with
  | nil => intro t _ _ _; rfl
  | cons c p' ih =>
    intro t hp ht htne
    have hstep : try1 (c :: (p' ++ t)) = none := by
      cases p' with
      | nil =>
        cases t with
        | nil => exact absurd rfl htne
        | cons t0 ts => exact hnone c t0 ts (ht t0 (by simp))
      | cons c2 p'' =>
        exact hnone c c2 (p'' ++ t) (hp c2 (by simp))
    rw [List.cons_append, searchWith_cons_none try1 c (p' ++ t) hstep]
    exact ih t (fun d hd => hp d (by simp [hd])) ht htne

theorem tryTotal_none (c1 c2 : Char) (rest : List Char) (h : c2 ≠ 'O') :
    tryTotal (c1 :: c2 :: rest) = none := by
  have hlit : matchLit "TOTAL".data (c1 :: c2 :: rest) = none := by
    rw [show "TOTAL".data = 'T' :: 'O' :: 'T' :: 'A' :: 'L' :: [] from rfl,
      matchLit_cons, matchLit_cons]
    by_cases h1 : c1 = 'T'
    · rw [if_pos h1, if_neg h]
    · rw [if_neg h1]
  unfold tryTotal
  rw [hlit]
  rfl

theorem tryAvg_none (c1 c2 : Char) (rest : List Char) (h : c2 ≠ 'V') :
    tryAvg (c1 :: c2 :: rest) = none := by
  have hlit : matchLit "AVERAGE".data (c1 :: c2 :: rest) = none := by
    rw [show "AVERAGE".data = 'A' :: 'V' :: 'E' :: 'R' :: 'A' :: 'G' :: 'E' :: [] from rfl,
      matchLit_cons, matchLit_cons]
    by_cases h1 : c1 = 'A'
    · rw [if_pos h1, if_neg h]
    · rw [if_neg h1]
  unfold tryAvg
  rw [hlit]
  rfl

/-! ## Character-class facts -/

theorem pyIsSpace_cases (c : Char) (h : pyIsSpace c = true) :
    c = ' ' ∨ c = '\t' ∨ c = '\n' ∨ c = '\r' ∨ c = '\x0c' ∨ c = '\x0b' := by
  unfold pyIsSpace at h
  simp only [Bool.or_eq_true, decide_eq_true_eq] at h
  tauto

theorem space_not_digitdot (c : Char) (h : pyIsSpace c = true) :
    isDigitChar c = false ∧ isDigitDot c = false := by
  rcases pyIsSpace_cases c h with h | h | h | h | h | h <;> subst h <;> decide

theorem isDigitDot_not_space (c : Char) (h : isDigitDot c = true) : pyIsSpace c = false := by
  cases hs : pyIsSpace c
  · rfl
  · exact absurd h (by simp [(space_not_digitdot c hs).2])

theorem isDigitDot_ne_OV (c : Char) (h : isDigitDot c = true) : c ≠ 'O' ∧ c ≠ 'V' := by
  constructor <;> intro he <;> subst he <;> revert h <;> decide

theorem sdata_append (s t : String) : (s ++ t).data = s.data ++ t.data := by
  cases s; cases t; rfl

theorem padRightS_data (s : String) (w : Nat) :
    (padRightS s w).data = s.data ++ List.replicate (w - s.length) ' ' := by
  unfold padRightS spacesStr
  rw [sdata_append]

theorem padLeft0_data (s : String) (w : Nat) :
    (padLeft0 s w).data = List.replicate (w - s.length) '0' ++ s.data := by
  unfold padLeft0
  rw [sdata_append]

theorem chars_append {P : Char → Prop} {a b : List Char}
    (ha : ∀ c ∈ a, P c) (hb : ∀ c ∈ b, P c) : ∀ c ∈ a ++ b, P c := by
  intro c hc
  rcases List.mem_append.mp hc with h | h
  · exact ha c h
  · exact hb c h

theorem chars_replicate {P : Char → Prop} (k : Nat) (x : Char) (hx : P x) :
    ∀ c ∈ List.replicate k x, P c := by
  intro c hc
  rw [List.eq_of_mem_replicate hc]
  exact hx

theorem concatStrs_chars {P : Char → Prop} :
    ∀ (l : List String), (∀ s ∈ l, ∀ c ∈ s.data, P c) → ∀ c ∈ (concatStrs l).data, P c := by
  intro l
  induction l with
  | nil =>
    intro _ c hc
    exact absurd hc (List.not_mem_nil c)
  | cons s rest ih =>
    intro h c hc
    rw [show concatStrs (s :: rest) = s ++ concatStrs rest from rfl, sdata_append] at hc
    rcases List.mem_append.mp hc with hm | hm
    · exact h s (by simp) c hm
    · exact ih (fun t ht => h t (by simp [ht])) c hm

theorem natStr_chars (n : Nat) : ∀ c ∈ (natStr n).data,
    isDigitChar c = true ∧ pyIsSpace c = false ∧ c ≠ 'O' ∧ c ≠ 'V' := by
  intro c hc
  obtain ⟨k, hk, rfl⟩ := natStr_shape n c hc
  exact ⟨(digitChar_facts k hk).2.1, (digitChar_facts k hk).2.2.2.1,
    (digitChar_facts k hk).2.2.2.2.2.1, (digitChar_facts k hk).2.2.2.2.2.2.1⟩

theorem fmt2_chars (x : Rat) : ∀ c ∈ (fmt2 x).data, c ≠ 'O' ∧ c ≠ 'V' :=
  fun c hc => isDigitDot_ne_OV c (fmt2_shape x c hc)

theorem statusStr_chars (b : Bool) : ∀ c ∈ (statusStr b).data, c ≠ 'O' ∧ c ≠ 'V' := by
  cases b <;> decide

theorem rowLine_chars (r : ParseResultW) : ∀ c ∈ (rowLine r).data, c ≠ 'O' ∧ c ≠ 'V' := by
  have hd : (rowLine r).data =
      (padLeft0 (natStr r.sample_idx) 5).data ++ ("      ".data ++
      ((padRightS (statusStr r.success) 10).data ++ (" ".data ++
      ((padRightS (natStr r.attempts) 10).data ++ (" ".data ++
      ((padRightS (natStr (r.attempts - 1)) 10).data ++ (" ".data ++
      ((padRightS (fmt2 r.elapsed_seconds) 12).data ++ "\n".data)))))))) := by
    simp [rowLine, sdata_append, List.append_assoc]
  rw [hd]
  have hOV : ∀ (n : Nat), ∀ c ∈ (natStr n).data, c ≠ 'O' ∧ c ≠ 'V' :=
    fun n c hc => ⟨(natStr_chars n c hc).2.2.1, (natStr_chars n c hc).2.2.2⟩
  have hpadN : ∀ (n w : Nat), ∀ c ∈ (padRightS (natStr n) w).data, c ≠ 'O' ∧ c ≠ 'V' := by
    intro n w c hc
    rw [padRightS_data] at hc
    rcases List.mem_append.mp hc with h | h
    · exact hOV n c h
    · rw [List.eq_of_mem_replicate h]; decide
  refine chars_append ?_ (chars_append (by decide) (chars_append ?_ (chars_append (by decide)
    (chars_append (hpadN _ _) (chars_append (by decide) (chars_append (hpadN _ _)
    (chars_append (by decide) (chars_append ?_ (by decide)))))))))
  · intro c hc
    rw [padLeft0_data] at hc
    rcases List.mem_append.mp hc with h | h
    · rw [List.eq_of_mem_replicate h]; decide
    · exact hOV _ c h
  · intro c hc
    rw [padRightS_data] at hc
    rcases List.mem_append.mp hc with h | h
    · exact statusStr_chars r.success c h
    · rw [List.eq_of_mem_replicate h]; decide
  · intro c hc
    rw [padRightS_data] at hc
    rcases List.mem_append.mp hc with h | h
    · exact fmt2_chars _ c h
    · rw [List.eq_of_mem_replicate h]; decide

/-! ## Evaluating the anchored matchers on the writer's line shapes -/

theorem natStr_head_not_space (d : Nat) (X : List Char) :
    ∀ c ∈ ((natStr d).data ++ X).take 1, pyIsSpace c = false := by
  intro c hc
  rw [take_one_append (natStr_ne_nil d)] at hc
  exact (natStr_chars d c (List.mem_of_mem_take hc)).2.1

theorem head_not_space_of_digitdot {g : List Char} (hg : ∀ c ∈ g, isDigitDot c = true)
    (hgn : g ≠ []) (X : List Char) : ∀ c ∈ (g ++ X).take 1, pyIsSpace c = false := by
  intro c hc
  rw [take_one_append hgn] at hc
  exact isDigitDot_not_space c (hg c (List.mem_of_mem_take hc))

theorem space_head_not_digit {sp : List Char} (hs : ∀ c ∈ sp, pyIsSpace c = true)
    (hn : sp ≠ []) (Y : List Char) : ∀ c ∈ (sp ++ Y).take 1, isDigitChar c = false := by
  intro c hc
  rw [take_one_append hn] at hc
  exact (space_not_digitdot c (hs c (List.mem_of_mem_take hc))).1

theorem space_head_not_digitdot {sp : List Char} (hs : ∀ c ∈ sp, pyIsSpace c = true)
    (hn : sp ≠ []) (Y : List Char) : ∀ c ∈ (sp ++ Y).take 1, isDigitDot c = false := by
  intro c hc
  rw [take_one_append hn] at hc
  exact (space_not_digitdot c (hs c (List.mem_of_mem_take hc))).2

theorem slash_head (X : List Char) : ∀ c ∈ ('/' :: X).take 1, isDigitChar c = false := by
  intro c hc
  simp at hc
  subst hc
  decide

theorem natStr_digit (d : Nat) : ∀ c ∈ (natStr d).data, isDigitChar c = true :=
  fun c hc => (natStr_chars d c hc).1

theorem space_block_chars (k : Nat) :
    ∀ c ∈ List.replicate k ' ' ++ [' '], pyIsSpace c = true := by
  intro c hc
  rcases List.mem_append.mp hc with h | h
  · rw [List.eq_of_mem_replicate h]; decide
  · simp at h; subst h; decide

theorem space_block_ne (k : Nat) : List.replicate k ' ' ++ [' '] ≠ ([] : List Char) := by
  simp

theorem take1_repl_cons (k : Nat) (x y : Char) (zs : List Char) :
    ∀ c ∈ (List.replicate k x ++ y :: zs).take 1, c = x ∨ c = y := by
  cases k with
  | zero =>
    intro c hc
    simp at hc
    exact Or.inr hc
  | succ j =>
    intro c hc
    rw [List.replicate_succ, List.cons_append] at hc
    simp at hc
    exact Or.inl hc

/-- The pattern matcher for the `TOTAL` line succeeds on the shape the
writer produces, returning the first two digit groups. -/
theorem tryTotal_eval (sp1 sp2 sp3 sp4 : List Char)
    (hs1 : ∀ c ∈ sp1, pyIsSpace c = true) (hn1 : sp1 ≠ [])
    (hs2 : ∀ c ∈ sp2, pyIsSpace c = true) (hn2 : sp2 ≠ [])
    (hs3 : ∀ c ∈ sp3, pyIsSpace c = true) (hn3 : sp3 ≠ [])
    (hs4 : ∀ c ∈ sp4, pyIsSpace c = true) (hn4 : sp4 ≠ [])
    (d1 d2 d3 d4 : Nat) (gt rest : List Char)
    (hgt : ∀ c ∈ gt, isDigitDot c = true) (hgtn : gt ≠ [])
    (hrest : ∀ c ∈ rest.take 1, isDigitDot c = false) :
    tryTotal ("TOTAL".data ++ (sp1 ++ ((natStr d1).data ++ ('/' ::
      ((natStr d2).data ++ (sp2 ++ ((natStr d3).data ++ (sp3 ++
      ((natStr d4).data ++ (sp4 ++ (gt ++ rest))))))))))) = some (d1, d2) := by
  unfold tryTotal
  rw [matchLit_eval]
  simp only [obind_some]
  rw [munch1_eval sp1 _ hs1 hn1 (natStr_head_not_space d1 _)]
  simp only [obind_some]
  rw [munch1_eval (natStr d1).data _ (natStr_digit d1) (natStr_ne_nil d1) (slash_head _)]
  simp only [obind_some]
  rw [matchLit_single]
  simp only [obind_some]
  rw [munch1_eval (natStr d2).data _ (natStr_digit d2) (natStr_ne_nil d2)
    (space_head_not_digit hs2 hn2 _)]
  simp only [obind_some]
  rw [munch1_eval sp2 _ hs2 hn2 (natStr_head_not_space d3 _)]
  simp only [obind_some]
  rw [munch1_eval (natStr d3).data _ (natStr_digit d3) (natStr_ne_nil d3)
    (space_head_not_digit hs3 hn3 _)]
  simp only [obind_some]
  rw [munch1_eval sp3 _ hs3 hn3 (natStr_head_not_space d4 _)]
  simp only [obind_some]
  rw [munch1_eval (natStr d4).data _ (natStr_digit d4) (natStr_ne_nil d4)
    (space_head_not_digit hs4 hn4 _)]
  simp only [obind_some]
  rw [munch1_eval sp4 _ hs4 hn4 (head_not_space_of_digitdot hgt hgtn _)]
  simp only [obind_some]
  rw [munch1_eval gt rest hgt hgtn hrest]
  simp only [omap_some]
  rw [parseNat_natStr, parseNat_natStr]

/-- The pattern matcher for the `AVERAGE` line succeeds on the shape the
writer produces, returning the three groups. -/
theorem tryAvg_eval (sp1 sp2 sp3 : List Char)
    (hs1 : ∀ c ∈ sp1, pyIsSpace c = true) (hn1 : sp1 ≠ [])
    (hs2 : ∀ c ∈ sp2, pyIsSpace c = true) (hn2 : sp2 ≠ [])
    (hs3 : ∀ c ∈ sp3, pyIsSpace c = true) (hn3 : sp3 ≠ [])
    (g1 g2 g3 rest : List Char)
    (hg1 : ∀ c ∈ g1, isDigitDot c = true) (hg1n : g1 ≠ [])
    (hg2 : ∀ c ∈ g2, isDigitDot c = true) (hg2n : g2 ≠ [])
    (hg3 : ∀ c ∈ g3, isDigitDot c = true) (hg3n : g3 ≠ [])
    (hrest : ∀ c ∈ rest.take 1, isDigitDot c = false) :
    tryAvg ("AVERAGE".data ++ (sp1 ++ (g1 ++ (sp2 ++ (g2 ++ (sp3 ++ (g3 ++ rest))))))) =
      some (g1, g2, g3) := by
  unfold tryAvg
  rw [matchLit_eval]
  simp only [obind_some]
  rw [munch1_eval sp1 _ hs1 hn1 (head_not_space_of_digitdot hg1 hg1n _)]
  simp only [obind_some]
  rw [munch1_eval g1 _ hg1 hg1n (space_head_not_digitdot hs2 hn2 _)]
  simp only [obind_some]
  rw [munch1_eval sp2 _ hs2 hn2 (head_not_space_of_digitdot hg2 hg2n _)]
  simp only [obind_some]
  rw [munch1_eval g2 _ hg2 hg2n (space_head_not_digitdot hs3 hn3 _)]
  simp only [obind_some]
  rw [munch1_eval sp3 _ hs3 hn3 (head_not_space_of_digitdot hg3 hg3n _)]
  simp only [obind_some]
  rw [munch1_eval g3 rest hg3 hg3n hrest]
  simp only [omap_some]

theorem spacesStr_data (n : Nat) : (spacesStr n).data = List.replicate n ' ' := rfl

theorem eqLineS_data : eqLineS.data = List.replicate 80 '=' := rfl

theorem dashLineS_data : dashLineS.data = List.replicate 80 '-' := rfl

theorem countP_compl (l : List ParseResultW) :
    (l.countP fun r => r.success) + (l.countP fun r => !r.success) = l.length := by
  induction l with
  | nil => rfl
  | cons r rest ih =>
    cases hr : r.success <;> simp [List.countP_cons, hr] <;> omega

theorem padRightS_chars {P : Char → Prop} (s : String) (w : Nat)
    (hs : ∀ c ∈ s.data, P c) (hsp : P ' ') : ∀ c ∈ (padRightS s w).data, P c := by
  rw [padRightS_data]
  exact chars_append hs (chars_replicate _ ' ' hsp)

/-- C7: writer/parser round trip. For every non-empty list of results,
each with at least one attempt and a non-negative elapsed time,
`parse_run_summary` applied to the text written by `_write_run_summary`
returns: total_samples = the number of results, failed_samples = the
number of unsuccessful results, success_rate = succeeded count / total
count, and avg_retries and avg_time equal to
(total attempts − number of results) / number of results and the mean
elapsed time respectively, each up to the writer's two-decimal
formatting (rendering x as round(100x)/100). -/
theorem write_parse_roundtrip (results : List ParseResultW)
    (hne : results ≠ [])
    (hatt : ∀ r ∈ results, 1 ≤ r.attempts)
    (helap : ∀ r ∈ results, 0 ≤ r.elapsed_seconds) :
    parseRunSummary (some (writeRunSummary results)) = .ok
      ⟨((results.countP fun r => r.success : Nat) : Rat) / (results.length : Rat),
        ((roundHalfEven ((((((results.map fun r => r.attempts).sum - results.length) : Nat) : Rat) / (results.length : Rat)) * 100)).toNat : Rat) / 100,
        ((roundHalfEven ((((results.map fun r => r.elapsed_seconds).sum) / (results.length : Rat)) * 100)).toNat : Rat) / 100,
        results.length,
        ((results.countP fun r => !r.success : Nat) : Int)⟩ := by
  have hie : results.isEmpty = false := by
    cases results with
    | nil => exact absurd rfl hne
    | cons a l => rfl
  have hpos : 0 < results.length := List.length_pos.mpr hne
  have hsplit1 : (writeRunSummary results).data = (List.replicate 80 '=' ++ (['\n'] ++ ("RUN SUMMARY - PER SAMPLE DETAILS\n".data ++ (List.replicate 80 '=' ++ (['\n'] ++ ((padRightS "Sample" 10).data ++ ([' '] ++ ((padRightS "Status" 10).data ++ ([' '] ++ ((padRightS "Attempts" 10).data ++ ([' '] ++ ((padRightS "Retries" 10).data ++ ([' '] ++ ((padRightS "Time (s)" 12).data ++ (['\n'] ++ (List.replicate 80 '-' ++ (['\n'] ++ ((concatStrs (results.map rowLine)).data ++ (List.replicate 80 '-' ++ ['\n']))))))))))))))))))) ++ ("TOTAL".data ++ ((List.replicate (10 - "TOTAL".length) ' ' ++ [' ']) ++ ((natStr (results.countP fun r => r.success)).data ++ ('/' :: ((natStr results.length).data ++ ((List.replicate (9 - (natStr results.length).length) ' ' ++ [' ']) ++ ((natStr ((results.map fun r => r.attempts).sum)).data ++ ((List.replicate (10 - (natStr ((results.map fun r => r.attempts).sum)).length) ' ' ++ [' ']) ++ ((natStr ((results.map fun r => r.attempts).sum - results.length)).data ++ ((List.replicate (10 - (natStr ((results.map fun r => r.attempts).sum - results.length)).length) ' ' ++ [' ']) ++ ((fmt2 ((results.map fun r => r.elapsed_seconds).sum)).data ++ (List.replicate (12 - (fmt2 ((results.map fun r => r.elapsed_seconds).sum)).length) ' ' ++ ('\n' :: ("AVERAGE".data ++ ((List.replicate (10 - "AVERAGE".length) ' ' ++ ([' '] ++ (List.replicate 10 ' ' ++ [' ']))) ++ ((fmt2 (((((results.map fun r => r.attempts).sum) : Nat) : Rat) / (results.length : Rat))).data ++ ((List.replicate (10 - (fmt2 (((((results.map fun r => r.attempts).sum) : Nat) : Rat) / (results.length : Rat))).length) ' ' ++ [' ']) ++ ((fmt2 (((((results.map fun r => r.attempts).sum - results.length) : Nat) : Rat) / (results.length : Rat))).data ++ ((List.replicate (10 - (fmt2 (((((results.map fun r => r.attempts).sum - results.length) : Nat) : Rat) / (results.length : Rat))).length) ' ' ++ [' ']) ++ ((fmt2 (((results.map fun r => r.elapsed_seconds).sum) / (results.length : Rat))).data ++ (List.replicate (12 - (fmt2 (((results.map fun r => r.elapsed_seconds).sum) / (results.length : Rat))).length) ' ' ++ ('\n' :: (List.replicate 80 '=' ++ ['\n']))))))))))))))))))))))) := by
    unfold writeRunSummary
    simp only [hie, Bool.false_eq_true, if_false, sdata_append, padRightS_data, spacesStr_data, eqLineS_data, dashLineS_data, List.append_assoc, List.cons_append, List.nil_append]
  have hsplit2 : (writeRunSummary results).data = ((List.replicate 80 '=' ++ (['\n'] ++ ("RUN SUMMARY - PER SAMPLE DETAILS\n".data ++ (List.replicate 80 '=' ++ (['\n'] ++ ((padRightS "Sample" 10).data ++ ([' '] ++ ((padRightS "Status" 10).data ++ ([' '] ++ ((padRightS "Attempts" 10).data ++ ([' '] ++ ((padRightS "Retries" 10).data ++ ([' '] ++ ((padRightS "Time (s)" 12).data ++ (['\n'] ++ (List.replicate 80 '-' ++ (['\n'] ++ ((concatStrs (results.map rowLine)).data ++ (List.replicate 80 '-' ++ ['\n']))))))))))))))))))) ++ ("TOTAL".data ++ ((List.replicate (10 - "TOTAL".length) ' ' ++ [' ']) ++ ((natStr (results.countP fun r => r.success)).data ++ (['/'] ++ ((natStr results.length).data ++ ((List.replicate (9 - (natStr results.length).length) ' ' ++ [' ']) ++ ((natStr ((results.map fun r => r.attempts).sum)).data ++ ((List.replicate (10 - (natStr ((results.map fun r => r.attempts).sum)).length) ' ' ++ [' ']) ++ ((natStr ((results.map fun r => r.attempts).sum - results.length)).data ++ ((List.replicate (10 - (natStr ((results.map fun r => r.attempts).sum - results.length)).length) ' ' ++ [' ']) ++ ((fmt2 ((results.map fun r => r.elapsed_seconds).sum)).data ++ (List.replicate (12 - (fmt2 ((results.map fun r => r.elapsed_seconds).sum)).length) ' ' ++ ['\n']))))))))))))) ++ ("AVERAGE".data ++ ((List.replicate (10 - "AVERAGE".length) ' ' ++ ([' '] ++ (List.replicate 10 ' ' ++ [' ']))) ++ ((fmt2 (((((results.map fun r => r.attempts).sum) : Nat) : Rat) / (results.length : Rat))).data ++ ((List.replicate (10 - (fmt2 (((((results.map fun r => r.attempts).sum) : Nat) : Rat) / (results.length : Rat))).length) ' ' ++ [' ']) ++ ((fmt2 (((((results.map fun r => r.attempts).sum - results.length) : Nat) : Rat) / (results.length : Rat))).data ++ ((List.replicate (10 - (fmt2 (((((results.map fun r => r.attempts).sum - results.length) : Nat) : Rat) / (results.length : Rat))).length) ' ' ++ [' ']) ++ ((fmt2 (((results.map fun r => r.elapsed_seconds).sum) / (results.length : Rat))).data ++ (List.replicate (12 - (fmt2 (((results.map fun r => r.elapsed_seconds).sum) / (results.length : Rat))).length) ' ' ++ ('\n' :: (List.replicate 80 '=' ++ ['\n'])))))))))) := by
    unfold writeRunSummary
    simp only [hie, Bool.false_eq_true, if_false, sdata_append, padRightS_data, spacesStr_data, eqLineS_data, dashLineS_data, List.append_assoc, List.cons_append, List.nil_append]
  have hP1 : ∀ c ∈ (List.replicate 80 '=' ++ (['\n'] ++ ("RUN SUMMARY - PER SAMPLE DETAILS\n".data ++ (List.replicate 80 '=' ++ (['\n'] ++ ((padRightS "Sample" 10).data ++ ([' '] ++ ((padRightS "Status" 10).data ++ ([' '] ++ ((padRightS "Attempts" 10).data ++ ([' '] ++ ((padRightS "Retries" 10).data ++ ([' '] ++ ((padRightS "Time (s)" 12).data ++ (['\n'] ++ (List.replicate 80 '-' ++ (['\n'] ++ ((concatStrs (results.map rowLine)).data ++ (List.replicate 80 '-' ++ ['\n']))))))))))))))))))), c ≠ 'O' ∧ c ≠ 'V' := by
    refine chars_append (chars_replicate _ _ (by decide)) (chars_append (by decide)
      (chars_append (by decide) (chars_append (chars_replicate _ _ (by decide))
      (chars_append (by decide) (chars_append (padRightS_chars _ _ (by decide) (by decide))
      (chars_append (by decide) (chars_append (padRightS_chars _ _ (by decide) (by decide))
      (chars_append (by decide) (chars_append (padRightS_chars _ _ (by decide) (by decide))
      (chars_append (by decide) (chars_append (padRightS_chars _ _ (by decide) (by decide))
      (chars_append (by decide) (chars_append (padRightS_chars _ _ (by decide) (by decide))
      (chars_append (by decide) (chars_append (chars_replicate _ _ (by decide))
      (chars_append (by decide) (chars_append ?_
      (chars_append (chars_replicate _ _ (by decide)) (by decide)))))))))))))))))))
    refine concatStrs_chars _ ?_
    intro t ht
    obtain ⟨r, hr, rfl⟩ := List.mem_map.mp ht
    exact rowLine_chars r
  have hTot : searchTotal (writeRunSummary results).data =
      some ((results.countP fun r => r.success), results.length) := by
    show searchWith tryTotal (writeRunSummary results).data = _
    rw [hsplit1]
    refine Eq.trans (searchWith_skip tryTotal 'O' tryTotal_none _ _
      (fun c hc => (hP1 c hc).1) ?_ ?_) ?_
    · intro c hc
      rw [take_one_append (by decide)] at hc
      have hh : ∀ c ∈ ("TOTAL".data).take 1, c ≠ 'O' := by decide
      exact hh c hc
    · intro hnil
      exact absurd (List.append_eq_nil.mp hnil).1 (by decide)
    · refine searchWith_pos _ _ _ ?_
      refine tryTotal_eval _ _ _ _ (space_block_chars _) (space_block_ne _)
        (space_block_chars _) (space_block_ne _) (space_block_chars _) (space_block_ne _)
        (space_block_chars _) (space_block_ne _) _ _ _ _ _ _
        (fmt2_shape _) (fmt2_ne_nil _) ?_
      intro c hc
      rcases take1_repl_cons _ _ _ _ c hc with h | h <;> subst h <;> decide
  have hAvg : searchAvg (writeRunSummary results).data =
      some ((fmt2 (((((results.map fun r => r.attempts).sum) : Nat) : Rat) / (results.length : Rat))).data, (fmt2 (((((results.map fun r => r.attempts).sum - results.length) : Nat) : Rat) / (results.length : Rat))).data, (fmt2 (((results.map fun r => r.elapsed_seconds).sum) / (results.length : Rat))).data) := by
    show searchWith tryAvg (writeRunSummary results).data = _
    rw [hsplit2]
    refine Eq.trans (searchWith_skip tryAvg 'V' tryAvg_none _ _
      (chars_append (fun c hc => (hP1 c hc).2) ?_) ?_ ?_) ?_
    · refine chars_append (by decide) (chars_append
        (chars_append (chars_replicate _ _ (by decide)) (by decide))
        (chars_append (fun c hc => (natStr_chars _ c hc).2.2.2) (chars_append (by decide)
        (chars_append (fun c hc => (natStr_chars _ c hc).2.2.2)
        (chars_append (chars_append (chars_replicate _ _ (by decide)) (by decide))
        (chars_append (fun c hc => (natStr_chars _ c hc).2.2.2)
        (chars_append (chars_append (chars_replicate _ _ (by decide)) (by decide))
        (chars_append (fun c hc => (natStr_chars _ c hc).2.2.2)
        (chars_append (chars_append (chars_replicate _ _ (by decide)) (by decide))
        (chars_append (fun c hc => (fmt2_chars _ c hc).2)
        (chars_append (chars_replicate _ _ (by decide)) (by decide))))))))))))
    · intro c hc
      rw [take_one_append (by decide)] at hc
      have hh : ∀ c ∈ ("AVERAGE".data).take 1, c ≠ 'V' := by decide
      exact hh c hc
    · intro hnil
      exact absurd (List.append_eq_nil.mp hnil).1 (by decide)
    · refine searchWith_pos _ _ _ ?_
      refine tryAvg_eval _ _ _ ?_ ?_ (space_block_chars _) (space_block_ne _)
        (space_block_chars _) (space_block_ne _) _ _ _ _
        (fmt2_shape _) (fmt2_ne_nil _) (fmt2_shape _) (fmt2_ne_nil _)
        (fmt2_shape _) (fmt2_ne_nil _) ?_
      · exact chars_append (chars_replicate _ _ (by decide))
          (chars_append (by decide) (space_block_chars 10))
      · simp
      · intro c hc
        rcases take1_repl_cons _ _ _ _ c hc with h | h <;> subst h <;> decide
  have hcompl : (results.countP fun r => r.success) +
      (results.countP fun r => !r.success) = results.length := countP_compl results
  have hfail : (results.length : Int) - ((results.countP fun r => r.success : Nat) : Int) =
      ((results.countP fun r => !r.success : Nat) : Int) := by omega
  simp [parseRunSummary, hTot, hAvg, parseFloatQ_fmt2, hpos, hfail]

section RatEvalG

attribute [local semireducible] Rat.mul Rat.add Rat.inv Rat.sub

set_option maxRecDepth 8000

/-- C7 witness: a two-sample run (one success taking 2s, one failure
with 3 attempts taking 0.5s) round-trips to
(0.5, 1.00, 1.25, 2, 1). -/
theorem write_parse_roundtrip_witness :
    ([⟨0, 1, true, 2⟩, ⟨1, 3, false, 1/2⟩] : List ParseResultW) ≠ [] ∧
    parseRunSummary (some (writeRunSummary [⟨0, 1, true, 2⟩, ⟨1, 3, false, 1/2⟩])) =
      .ok ⟨1/2, 1, 5/4, 2, 1⟩ := by
  constructor
  · exact List.cons_ne_nil _ _
  · have h := write_parse_roundtrip [⟨0, 1, true, 2⟩, ⟨1, 3, false, 1/2⟩]
      (List.cons_ne_nil _ _) (by decide) (by decide)
    rw [h]
    exact congrArg Except.ok (by decide)

end RatEvalG

end ToonEval
